import Mathlib

/-!
# Verification of the curated context containers pipeline

A shallow embedding, in Lean 4, of the parts of the repository that the
checked claims are about:

* `workers/src/workers/pipelines/chunker.py` — the character-window chunker;
* `workers/src/workers/pipelines/__init__.py` — document fingerprinting,
  dedup-on-hash, the ingest chunk loop and the image pipeline;
* `workers/src/workers/jobs/worker.py` — the retry transition of the job queue;
* `mcp-server/app/services/fusion.py` — reciprocal rank fusion;
* `mcp-server/app/services/search.py` — the BM25 stage filter, the result
  dedup filter and the latency-budget finalisation of a search response;
* `mcp-server/app/services/graph_nl2cypher.py` — the Cypher validator and the
  deterministic fallback query builder;
* `mcp-server/app/adapters/embedder.py` — vector normalisation and the
  zero-vector fallback.

Python strings are modelled as Lean `String`/`List Char`, machine floats as
`ℚ` (exact arithmetic; the properties at stake are discrete), byte strings as
`List ℕ` with every entry below 256, and SHA-256 is implemented concretely so
that hash values can be computed inside proofs.
-/

namespace CCC

/-! ## Bytes and UTF-8 -/

/-- UTF-8 encoding of a single character (RFC 3629), as a list of bytes. -/
def utf8Char (c : Char) : List Nat :=
  let n := c.toNat
  if n < 0x80 then [n]
  else if n < 0x800 then
    [0xC0 ||| (n >>> 6), 0x80 ||| (n &&& 0x3F)]
  else if n < 0x10000 then
    [0xE0 ||| (n >>> 12), 0x80 ||| ((n >>> 6) &&& 0x3F), 0x80 ||| (n &&& 0x3F)]
  else
    [0xF0 ||| (n >>> 18), 0x80 ||| ((n >>> 12) &&& 0x3F),
     0x80 ||| ((n >>> 6) &&& 0x3F), 0x80 ||| (n &&& 0x3F)]

/-- UTF-8 encoding of a string: what Python's `str.encode()` produces. -/
def utf8Encode (s : String) : List Nat :=
  s.data.foldr (fun c acc => utf8Char c ++ acc) []

/-! ## SHA-256 (FIPS 180-4), over byte lists

`hashlib.sha256(...).hexdigest()` is used by the ingest pipelines for the
document hash and is modelled here concretely, word arithmetic being `ℕ`
modulo `2^32`. -/

def w32 : Nat := 4294967296

/-- Right rotation of a 32-bit word. -/
def rotr32 (n w : Nat) : Nat := ((w >>> n) ||| (w <<< (32 - n))) % w32

def sigma0 (w : Nat) : Nat := (rotr32 7 w) ^^^ (rotr32 18 w) ^^^ (w >>> 3)

def sigma1 (w : Nat) : Nat := (rotr32 17 w) ^^^ (rotr32 19 w) ^^^ (w >>> 10)

def bigSigma0 (w : Nat) : Nat := (rotr32 2 w) ^^^ (rotr32 13 w) ^^^ (rotr32 22 w)

def bigSigma1 (w : Nat) : Nat := (rotr32 6 w) ^^^ (rotr32 11 w) ^^^ (rotr32 25 w)

/-- The 64 SHA-256 round constants. -/
def sha256K : List Nat :=
  [1116352408, 1899447441, 3049323471, 3921009573, 961987163, 1508970993,
   2453635748, 2870763221, 3624381080, 310598401, 607225278, 1426881987,
   1925078388, 2162078206, 2614888103, 3248222580, 3835390401, 4022224774,
   264347078, 604807628, 770255983, 1249150122, 1555081692, 1996064986,
   2554220882, 2821834349, 2952996808, 3210313671, 3336571891, 3584528711,
   113926993, 338241895, 666307205, 773529912, 1294757372, 1396182291,
   1695183700, 1986661051, 2177026350, 2456956037, 2730485921, 2820302411,
   3259730800, 3345764771, 3516065817, 3600352804, 4094571909, 275423344,
   430227734, 506948616, 659060556, 883997877, 958139571, 1322822218,
   1537002063, 1747873779, 1955562222, 2024104815, 2227730452, 2361852424,
   2428436474, 2756734187, 3204031479, 3329325298]

/-- The initial SHA-256 hash state. -/
def sha256H0 : List Nat :=
  [1779033703, 3144134277, 1013904242, 2773480762,
   1359893119, 2600822924, 528734635, 1541459225]

/-- SHA-256 padding: append `0x80`, zeros, and the 64-bit bit length. -/
def sha256Pad (msg : List Nat) : List Nat :=
  let len := msg.length
  let zeroCount := (119 - len % 64) % 64
  let bitLen := len * 8
  msg ++ [0x80] ++ List.replicate zeroCount 0 ++
    [(bitLen >>> 56) % 256, (bitLen >>> 48) % 256, (bitLen >>> 40) % 256,
     (bitLen >>> 32) % 256, (bitLen >>> 24) % 256, (bitLen >>> 16) % 256,
     (bitLen >>> 8) % 256, bitLen % 256]

/-- Split a byte list into 64-byte blocks; structural fuel (one unit per
block) keeps the definition kernel-computable, and the padded length is a
multiple of 64, so `length` fuel always suffices. -/
def toBlocksAux : Nat → List Nat → List (List Nat)
  | 0, _ => []
  | _ + 1, [] => []
  | n + 1, bytes => bytes.take 64 :: toBlocksAux n (bytes.drop 64)

/-- Split a padded message into 64-byte blocks. -/
def toBlocks (bytes : List Nat) : List (List Nat) :=
  toBlocksAux bytes.length bytes

/-- Pack a 64-byte block into its first 16 big-endian 32-bit words. -/
def toWords (block : List Nat) : List Nat :=
  match block with
  | b0 :: b1 :: b2 :: b3 :: rest =>
    (b0 * 16777216 + b1 * 65536 + b2 * 256 + b3) :: toWords rest
  | _ => []

/-- Extend 16 message-schedule words to 64. -/
def extendSchedule (ws : List Nat) : Nat → List Nat
  | 0 => ws
  | n + 1 =>
    let i := ws.length
    let next := (sigma1 (ws.getD (i - 2) 0) + ws.getD (i - 7) 0 +
                 sigma0 (ws.getD (i - 15) 0) + ws.getD (i - 16) 0) % w32
    extendSchedule (ws ++ [next]) n

/-- One SHA-256 round on the 8-word working state. -/
def sha256Round (st : List Nat) (ki wi : Nat) : List Nat :=
  match st with
  | [a, b, c, d, e, f, g, h] =>
    let ch := (e &&& f) ^^^ ((w32 - 1 - e) &&& g)
    let t1 := (h + bigSigma1 e + ch + ki + wi) % w32
    let maj := (a &&& b) ^^^ (a &&& c) ^^^ (b &&& c)
    let t2 := (bigSigma0 a + maj) % w32
    [(t1 + t2) % w32, a, b, c, (d + t1) % w32, e, f, g]
  | st => st

/-- Compress one block into the running hash state. -/
def sha256Compress (hs : List Nat) (block : List Nat) : List Nat :=
  let ws := extendSchedule (toWords block) 48
  let final := (List.range 64).foldl
    (fun st i => sha256Round st (sha256K.getD i 0) (ws.getD i 0)) hs
  (hs.zip final).map (fun p => (p.1 + p.2) % w32)

/-- SHA-256 digest of a byte list, as the list of 8 32-bit words. -/
def sha256Words (msg : List Nat) : List Nat :=
  (toBlocks (sha256Pad msg)).foldl sha256Compress sha256H0

def hexDigit (n : Nat) : Char :=
  if n < 10 then Char.ofNat (48 + n) else Char.ofNat (87 + n)

/-- Lowercase hexadecimal rendering of a 32-bit word, 8 digits. -/
def wordToHex (word : Nat) : List Char :=
  [hexDigit ((word >>> 28) % 16), hexDigit ((word >>> 24) % 16),
   hexDigit ((word >>> 20) % 16), hexDigit ((word >>> 16) % 16),
   hexDigit ((word >>> 12) % 16), hexDigit ((word >>> 8) % 16),
   hexDigit ((word >>> 4) % 16), hexDigit (word % 16)]

/-- `hashlib.sha256(msg).hexdigest()`: the 64-character lowercase hex digest. -/
def sha256Hex (msg : List Nat) : String :=
  ⟨(sha256Words msg).foldr (fun word acc => wordToHex word ++ acc) []⟩

/-! ## Python string primitives -/

/-- ASCII whitespace, as recognised by Python's `str.strip()` / `str.split()`
(the repository only feeds ASCII whitespace through these paths). -/
def isPySpace (c : Char) : Bool :=
  c = ' ' || c = '\t' || c = '\n' || c = '\x0d' || c = '\x0b' || c = '\x0c'

/-- Python `str.strip()`: drop leading and trailing whitespace. -/
def pyStrip (l : List Char) : List Char :=
  ((l.dropWhile isPySpace).reverse.dropWhile isPySpace).reverse

def pyStripS (s : String) : String := ⟨pyStrip s.data⟩

/-- Single-pass worker for `str.split()`: `acc` holds the current word,
reversed. -/
def pySplitAux : List Char → List Char → List (List Char)
  | [], acc => if acc.isEmpty then [] else [acc.reverse]
  | c :: rest, acc =>
    if isPySpace c then
      (if acc.isEmpty then pySplitAux rest [] else acc.reverse :: pySplitAux rest [])
    else pySplitAux rest (c :: acc)

/-- Python `str.split()` with no argument: split on whitespace runs,
dropping empty pieces. -/
def pySplit (l : List Char) : List (List Char) := pySplitAux l []

/-- Python `str.lower()` on the ASCII range. -/
def pyLower (l : List Char) : List Char := l.map Char.toLower

/-! ## `chunker.py` — `chunk_text`

```python
sanitized = (text or "").strip()
if not sanitized: return []
tokens = []; start = 0; length = len(sanitized)
while start < length:
    end = min(length, start + chunk_size)
    tokens.append(sanitized[start:end].strip())
    if end == length: break
    start = max(0, end - overlap)
return [t for t in tokens if t]
```

The `while` loop is modelled with explicit fuel (one unit per iteration);
`chunk_text` runs it with fuel `len(sanitized)`, and the termination theorem
below shows that under `overlap < chunk_size` this fuel is never exhausted
(the result is stable under any larger fuel). -/

/-- One fuelled unfolding of the `chunk_text` while-loop. `start = max(0,
end - overlap)` is Lean's truncated `ℕ` subtraction. -/
def chunkLoop (s : List Char) (csize ov : Nat) : Nat → Nat → List (List Char)
  | 0, _ => []
  | fuel + 1, start =>
    if start < s.length then
      let e := min s.length (start + csize)
      let piece := pyStrip ((s.drop start).take (e - start))
      piece :: (if e = s.length then [] else chunkLoop s csize ov fuel (e - ov))
    else []

/-- `chunk_text(text, chunk_size, overlap)` from `chunker.py`. -/
def chunk_text (text : String) (csize ov : Nat) : List (List Char) :=
  let sanitized := pyStrip text.data
  if sanitized = [] then []
  else (chunkLoop sanitized csize ov sanitized.length 0).filter (· ≠ [])

/-- One-step unfolding of the loop at positive fuel. -/
theorem chunkLoop_succ (s : List Char) (csize ov fuel start : Nat) :
    chunkLoop s csize ov (fuel + 1) start =
      if start < s.length then
        (pyStrip ((s.drop start).take (min s.length (start + csize) - start))) ::
          (if min s.length (start + csize) = s.length then []
           else chunkLoop s csize ov fuel (min s.length (start + csize) - ov))
      else [] := rfl

/-- Fuel monotonicity of the chunk loop: once the remaining window
`length - start` fits inside the fuel, one more unit changes nothing.
This is the well-foundedness argument: each iteration advances `start`
by `chunk_size - overlap ≥ 1`. -/
theorem chunkLoop_fuel_succ (s : List Char) (csize ov : Nat)
    (hcs : 1 ≤ csize) (hov : ov < csize) :
    ∀ fuel start, s.length - start ≤ fuel →
      chunkLoop s csize ov (fuel + 1) start = chunkLoop s csize ov fuel start := by
  intro fuel
  induction fuel with
  | zero =>
    intro start hle
    rw [chunkLoop_succ]
    have : ¬ start < s.length := by omega
    simp [this, chunkLoop]
  | succ n ih =>
    intro start hle
    conv_lhs => rw [chunkLoop_succ]
    conv_rhs => rw [chunkLoop_succ]
    by_cases hlt : start < s.length
    · simp only [hlt, if_true]
      by_cases he : min s.length (start + csize) = s.length
      · simp [he]
      · simp only [he, if_false]
        have hmin : min s.length (start + csize) = start + csize := by omega
        rw [ih (min s.length (start + csize) - ov) (by omega)]
    · simp [hlt]

/-- Any fuel at least `length - start` computes the loop's limit. -/
theorem chunkLoop_fuel_ge (s : List Char) (csize ov : Nat)
    (hcs : 1 ≤ csize) (hov : ov < csize) :
    ∀ extra start, s.length - start ≤ fuel0 →
      chunkLoop s csize ov (fuel0 + extra) start = chunkLoop s csize ov fuel0 start := by
  intro extra
  induction extra with
  | zero => intro start _; rfl
  | succ n ih =>
    intro start hle
    have : fuel0 + (n + 1) = (fuel0 + n) + 1 := by omega
    rw [this, chunkLoop_fuel_succ s csize ov hcs hov (fuel0 + n) start (by omega),
      ih start hle]

/-- With `overlap = chunk_size` the loop of `chunk_text` re-visits the same
window forever: on input `"ab"` with `chunk_size = overlap = 1` the result
grows with the fuel, so no fuel computes a limit. -/
theorem chunkLoop_stuck_length :
    ∀ fuel, (chunkLoop ['a', 'b'] 1 1 fuel 0).length = fuel := by
  intro fuel
  induction fuel with
  | zero => rfl
  | succ n ih =>
    rw [chunkLoop_succ]
    norm_num
    exact ih

/-! ## `fusion.py` — `reciprocal_rank_fusion`

```python
scores = defaultdict(float)
for ranking in rankings:
    for idx, chunk_id in enumerate(ranking):
        scores[chunk_id] += 1.0 / (k + idx + 1)
return scores
```

The `defaultdict` is modelled as an insertion-ordered association list with
unique keys: an update in place for an existing key, an append for a new
key, matching Python `dict` semantics. -/

/-- Lookup in the score dict; missing keys read as `0` (defaultdict float). -/
def dictGet : List (String × ℚ) → String → ℚ
  | [], _ => 0
  | p :: rest, key => if p.1 == key then p.2 else dictGet rest key

/-- `scores[key] += v` on a defaultdict: update the existing entry in place,
or append a fresh entry holding `0 + v`. -/
def dictAdd : List (String × ℚ) → String → ℚ → List (String × ℚ)
  | [], key, v => [(key, v)]
  | p :: rest, key, v =>
    if p.1 == key then (p.1, p.2 + v) :: rest else p :: dictAdd rest key v

/-- `reciprocal_rank_fusion(rankings, k)` from `fusion.py`. -/
def reciprocal_rank_fusion (rankings : List (List String)) (k : Nat) :
    List (String × ℚ) :=
  rankings.foldl
    (fun scores ranking =>
      ranking.enum.foldl
        (fun scores p => dictAdd scores p.2 (1 / ((k : ℚ) + p.1 + 1)))
        scores)
    []

/-- 0-based index of the first occurrence of an id in a ranking. -/
def rankOf? (cid : String) : List String → Option Nat
  | [] => none
  | x :: xs => if x == cid then some 0 else (rankOf? cid xs).map (· + 1)

theorem dictGet_dictAdd_same (d : List (String × ℚ)) (key : String) (v : ℚ) :
    dictGet (dictAdd d key v) key = dictGet d key + v := by
  induction d with
  | nil => simp [dictAdd, dictGet]
  | cons p rest ih =>
    by_cases hp : p.1 = key
    · simp [dictAdd, dictGet, hp]
    · simp only [dictAdd, dictGet, beq_iff_eq, hp, if_false]
      exact ih

theorem dictGet_dictAdd_other (d : List (String × ℚ)) (key cid : String)
    (v : ℚ) (hne : key ≠ cid) :
    dictGet (dictAdd d key v) cid = dictGet d cid := by
  induction d with
  | nil => simp [dictAdd, dictGet, hne]
  | cons p rest ih =>
    by_cases hp : p.1 = key
    · simp [dictAdd, dictGet, hp, hne]
    · simp only [dictAdd, beq_iff_eq, hp, if_false, dictGet]
      by_cases hc : p.1 = cid <;> simp [hc, ih]

theorem dictAdd_keys_other (d : List (String × ℚ)) (key cid : String)
    (v : ℚ) (hne : key ≠ cid) (hmem : cid ∉ d.map Prod.fst) :
    cid ∉ (dictAdd d key v).map Prod.fst := by
  induction d with
  | nil => simpa [dictAdd] using Ne.symm hne
  | cons p rest ih =>
    simp only [List.map_cons, List.mem_cons] at hmem
    push_neg at hmem
    by_cases hp : p.1 = key
    · simp only [dictAdd, beq_iff_eq, hp, if_true, List.map_cons, List.mem_cons]
      push_neg
      exact ⟨Ne.symm hne, hmem.2⟩
    · simp only [dictAdd, beq_iff_eq, hp, if_false, List.map_cons, List.mem_cons]
      push_neg
      exact ⟨hmem.1, ih hmem.2⟩

/-- Folding one enumerated ranking adds `Σ 1/(k+idx+1)` over exactly the
positions holding `cid`. -/
theorem dictGet_foldPairs (k : Nat) (cid : String) :
    ∀ (pairs : List (Nat × String)) (d : List (String × ℚ)),
      dictGet (pairs.foldl (fun d p => dictAdd d p.2 (1 / ((k : ℚ) + p.1 + 1))) d) cid
        = dictGet d cid +
          ((pairs.filter (fun p => p.2 == cid)).map
            (fun p => (1 : ℚ) / ((k : ℚ) + p.1 + 1))).sum := by
  intro pairs
  induction pairs with
  | nil => intro d; simp
  | cons p rest ih =>
    intro d
    simp only [List.foldl_cons, ih, List.filter_cons]
    by_cases hp : p.2 = cid
    · rw [if_pos (by simpa using hp)]
      simp only [List.map_cons, List.sum_cons]
      rw [hp, dictGet_dictAdd_same]
      ring
    · rw [if_neg (by simpa using hp), dictGet_dictAdd_other _ _ _ _ hp]

theorem enumFrom_filter_of_not_mem (cid : String) :
    ∀ (r : List String) (i : Nat), cid ∉ r →
      (List.enumFrom i r).filter (fun p => p.2 == cid) = [] := by
  intro r
  induction r with
  | nil => intro i _; rfl
  | cons x xs ih =>
    intro i hmem
    simp only [List.mem_cons] at hmem
    push_neg at hmem
    simp only [List.enumFrom, List.filter_cons, beq_iff_eq]
    rw [if_neg (by simpa using Ne.symm hmem.1)]
    exact ih (i + 1) hmem.2

/-- On a duplicate-free ranking the positions holding `cid` are exactly the
singleton at its index (shifted by the enumeration offset), or nothing. -/
theorem enumFrom_filter_nodup (cid : String) :
    ∀ (r : List String) (i : Nat), r.Nodup →
      (List.enumFrom i r).filter (fun p => p.2 == cid)
        = (match rankOf? cid r with
           | some j => [(i + j, cid)]
           | none => []) := by
  intro r
  induction r with
  | nil => intro i _; rfl
  | cons x xs ih =>
    intro i hnd
    rw [List.nodup_cons] at hnd
    simp only [List.enumFrom, List.filter_cons, beq_iff_eq, rankOf?]
    by_cases hx : x = cid
    · rw [if_pos (by simpa using hx), if_pos (by simpa using hx)]
      rw [enumFrom_filter_of_not_mem cid xs (i + 1) (hx ▸ hnd.1)]
      simp [hx]
    · rw [if_neg (by simpa using hx), if_neg (by simpa using hx)]
      rw [ih (i + 1) hnd.2]
      cases hr : rankOf? cid xs with
      | none => rfl
      | some j =>
        show [(i + 1 + j, cid)] = [(i + (j + 1), cid)]
        rw [show i + 1 + j = i + (j + 1) by omega]

theorem enumFrom_map_snd {α : Type} : ∀ (i : Nat) (l : List α),
    (List.enumFrom i l).map Prod.snd = l := by
  intro i l
  induction l generalizing i with
  | nil => rfl
  | cons x xs ih => simp [List.enumFrom, ih]

theorem keys_foldPairs (k : Nat) (cid : String) :
    ∀ (pairs : List (Nat × String)) (d : List (String × ℚ)),
      cid ∉ pairs.map Prod.snd → cid ∉ d.map Prod.fst →
      cid ∉ ((pairs.foldl (fun d p => dictAdd d p.2 (1 / ((k : ℚ) + p.1 + 1))) d).map
        Prod.fst) := by
  intro pairs
  induction pairs with
  | nil => intro d _ hd; exact hd
  | cons p rest ih =>
    intro d hpairs hd
    simp only [List.map_cons, List.mem_cons] at hpairs
    push_neg at hpairs
    exact ih _ hpairs.2 (dictAdd_keys_other d p.2 cid _ (Ne.symm hpairs.1) hd)

/-- The fused score of an id, as computed by the nested fold of
`reciprocal_rank_fusion`, starting from any dict. -/
theorem dictGet_rrf_fold (k : Nat) (cid : String) :
    ∀ (rankings : List (List String)) (d : List (String × ℚ)),
      (∀ r ∈ rankings, r.Nodup) →
      dictGet (rankings.foldl
        (fun scores ranking =>
          ranking.enum.foldl
            (fun scores p => dictAdd scores p.2 (1 / ((k : ℚ) + p.1 + 1)))
            scores) d) cid
        = dictGet d cid +
          (rankings.map (fun r =>
            match rankOf? cid r with
            | some j => (1 : ℚ) / ((k : ℚ) + j + 1)
            | none => 0)).sum := by
  intro rankings
  induction rankings with
  | nil => intro d _; simp
  | cons r rest ih =>
    intro d hnd
    simp only [List.foldl_cons, List.map_cons, List.sum_cons]
    rw [ih _ (fun x hx => hnd x (List.mem_cons_of_mem r hx))]
    have henum : r.enum = List.enumFrom 0 r := rfl
    rw [henum, dictGet_foldPairs, enumFrom_filter_nodup cid r 0 (hnd r (by simp))]
    cases hr : rankOf? cid r with
    | none => simp
    | some j =>
      simp only [List.map_cons, List.map_nil, List.sum_cons, List.sum_nil]
      push_cast
      ring

/-- C8: `reciprocal_rank_fusion` with parameter 60 assigns each id the score
`Σ 1/(60 + rank_i)` over exactly the rankings containing it, `rank_i` being the
1-based position (so `1/(60 + j + 1)` at 0-based index `j`); an id absent from
every ranking gets no entry in the score dict. Requires each ranking to be
duplicate-free, as the claim assumes. -/
theorem rrf_score_formula (rankings : List (List String)) (cid : String)
    (hnd : ∀ r ∈ rankings, r.Nodup) :
    dictGet (reciprocal_rank_fusion rankings 60) cid
      = (rankings.map (fun r =>
          match rankOf? cid r with
          | some j => (1 : ℚ) / (60 + (j : ℚ) + 1)
          | none => 0)).sum
    ∧ ((∀ r ∈ rankings, cid ∉ r) →
        cid ∉ (reciprocal_rank_fusion rankings 60).map Prod.fst) := by
  constructor
  · have h := dictGet_rrf_fold 60 cid rankings [] hnd
    simp only [reciprocal_rank_fusion]
    rw [h]
    simp only [dictGet, Nat.cast_ofNat, zero_add]
  · intro habs
    simp only [reciprocal_rank_fusion]
    have : ∀ (rs : List (List String)) (d : List (String × ℚ)),
        (∀ r ∈ rs, cid ∉ r) → cid ∉ d.map Prod.fst →
        cid ∉ ((rs.foldl
          (fun scores ranking =>
            ranking.enum.foldl
              (fun scores p => dictAdd scores p.2 (1 / ((60 : ℚ) + p.1 + 1)))
              scores) d).map Prod.fst) := by
      intro rs
      induction rs with
      | nil => intro d _ hd; exact hd
      | cons r rest ih =>
        intro d habs hd
        simp only [List.foldl_cons]
        refine ih _ (fun x hx => habs x (List.mem_cons_of_mem r hx)) ?_
        refine keys_foldPairs 60 cid _ d ?_ hd
        rw [show r.enum = List.enumFrom 0 r from rfl, enumFrom_map_snd]
        exact habs r (by simp)
    exact this rankings [] habs (by simp)

/-- Witness for C8 at a concrete family of rankings: "b" sits at 1-based rank
2 of the first ranking and rank 1 of the second. -/
theorem rrf_score_formula_witness :
    (∀ r ∈ [["a", "b"], ["b", "c"]], List.Nodup r) ∧
    dictGet (reciprocal_rank_fusion [["a", "b"], ["b", "c"]] 60) "b"
      = 1 / 62 + 1 / 61 := by
  refine ⟨by decide, ?_⟩
  rw [(rrf_score_formula [["a", "b"], ["b", "c"]] "b" (by decide)).1]
  have h1 : rankOf? "b" ["a", "b"] = some 1 := by decide
  have h2 : rankOf? "b" ["b", "c"] = some 0 := by decide
  norm_num [h1, h2]

/-- C10: on parameters `chunk_size ≥ 1`, `overlap < chunk_size`, the
`chunk_text` while-loop terminates — fuel `len(sanitized)` computes its limit,
each iteration advancing the window start by `chunk_size - overlap ≥ 1` — and
every returned chunk is non-empty; and the precondition is essential: with
`overlap = chunk_size` (chunk size 1, overlap 1, input `"ab"`) the loop never
stabilises at any fuel. -/
theorem chunk_text_terminates (csize ov : Nat) (text : String)
    (hcs : 1 ≤ csize) (hov : ov < csize) :
    (∀ extra, chunkLoop (pyStrip text.data) csize ov
        ((pyStrip text.data).length + extra) 0
      = chunkLoop (pyStrip text.data) csize ov (pyStrip text.data).length 0)
    ∧ (∀ piece ∈ chunk_text text csize ov, piece ≠ [])
    ∧ (∀ fuel, chunkLoop ['a', 'b'] 1 1 fuel 0 ≠ chunkLoop ['a', 'b'] 1 1 (fuel + 1) 0) := by
  refine ⟨?_, ?_, ?_⟩
  · intro extra
    exact chunkLoop_fuel_ge (pyStrip text.data) csize ov hcs hov extra 0 (by omega)
  · intro piece hmem
    simp only [chunk_text] at hmem
    by_cases hs : pyStrip text.data = []
    · simp [hs] at hmem
    · simp only [hs, if_false, List.mem_filter] at hmem
      simpa using hmem.2
  · intro fuel h
    have h1 := chunkLoop_stuck_length fuel
    have h2 := chunkLoop_stuck_length (fuel + 1)
    rw [h] at h1
    omega

/-- Witness for C10 at `chunk_size = 2`, `overlap = 1`, text `"ab cd"`. -/
theorem chunk_text_terminates_witness :
    (1 ≤ 2 ∧ 1 < 2) ∧ (∀ piece ∈ chunk_text "ab cd" 2 1, piece ≠ []) :=
  ⟨by decide, (chunk_text_terminates 2 1 "ab cd" (by decide) (by decide)).2.1⟩

/-! ## `pipelines/__init__.py` — the ingest pipeline

State touched by `_ingest` and `_image_pipeline`: the `documents` and
`chunks` tables, the raw blob store (MinIO), the Qdrant point store, the
`embedding_cache` table, and the per-container stats recomputed by
`_update_container_stats` (modelled as a version counter). `uuid.uuid4()`
is modelled as a fresh-id counter. Vectors stay an arbitrary type `V`;
the embedder, the cache-staleness clock and the Qdrant similarity search
(`_semantic_duplicate_target`) are oracle parameters, since they live
outside the relational state. Graph extraction writes to Neo4j only and is
outside the claims, so it is not part of the modelled state. -/

structure Source where
  uri : Option String
  title : Option String
  mime : Option String
  metaText : Option String
  meta : List (String × String)
deriving DecidableEq, Repr

structure DocRow where
  id : Nat
  container : String
  uri : Option String
  mime : String
  hash : String
  title : Option String
  meta : List (String × String)
deriving DecidableEq, Repr

structure ChunkRow where
  id : Nat
  container : String
  docId : Nat
  modality : String
  text : List Char
  meta : List (String × String)
  embeddingVersion : String
  dedupOf : Option Nat
deriving DecidableEq, Repr

structure Point (V : Type) where
  id : Nat
  docId : Nat
  container : String
  modality : String
  vector : V
deriving DecidableEq, Repr

structure Store (V : Type) where
  documents : List DocRow
  chunks : List ChunkRow
  blobs : List (String × Nat × Option String × String)
  points : List (Point V)
  embCache : List (String × V)
  statsVersion : Nat
  nextId : Nat
deriving DecidableEq, Repr

/-- Truthiness of an optional string (Python: `None` and `""` are falsy). -/
def truthy : Option String → Bool
  | none => false
  | some s => s ≠ ""

/-- `a or b` on optional strings (Python short-circuit over truthiness). -/
def pyOr (a b : Option String) : Option String := if truthy a then a else b

/-- `_ensure_text(source, modality)`: prefer `meta["text"]`, then (for pdf)
the extractor, then a placeholder built from the URI. -/
def ensure_text (extract : Source → String) (source : Source) (modality : String) :
    String :=
  let placeholder :=
    "Placeholder content for " ++ ((pyOr source.uri (some "unknown")).getD "unknown")
  match source.metaText with
  | some t =>
    if t ≠ "" then t
    else if modality = "pdf" then
      (if extract source ≠ "" then extract source else placeholder)
    else placeholder
  | none =>
    if modality = "pdf" then
      (if extract source ≠ "" then extract source else placeholder)
    else placeholder

/-- `_upsert_document(cur, container_uuid, source, mime, doc_hash)`:
returns the doc id, the duplicate flag, and the updated store.
A found document that already has chunks is reported as a duplicate with no
write; one with no chunks has its metadata refreshed; otherwise a fresh
document row is inserted. -/
def upsertDocument {V : Type} (st : Store V) (container : String) (source : Source)
    (mime docHash : String) : Nat × Bool × Store V :=
  match st.documents.find? (fun d => d.container == container && d.hash == docHash) with
  | some d =>
    if st.chunks.any (fun c => c.docId == d.id) then
      (d.id, true, st)
    else
      (d.id, false,
        { st with documents := st.documents.map (fun e =>
            if e.id == d.id then
              { e with uri := source.uri, mime := mime, hash := docHash,
                       title := source.title, meta := source.meta }
            else e) })
  | none =>
    let docId := st.nextId
    (docId, false,
      { st with
          nextId := st.nextId + 1,
          documents := st.documents ++
            [{ id := docId, container := container, uri := source.uri,
               mime := mime, hash := docHash, title := source.title,
               meta := source.meta }] })

/-- `_embedding_from_cache_or_compute`: cache hit returns the stored vector
(cache-TTL staleness decided by the oracle `isStale`); a miss or a stale
entry computes the embedding and (re)inserts it. -/
def cacheOrCompute {V : Type} (isStale : String → Bool) (st : Store V)
    (key : String) (computed : V) : V × Store V :=
  match st.embCache.find? (fun p => p.1 == key) with
  | some p =>
    if isStale key then
      (computed,
        { st with embCache :=
            (st.embCache.filter (fun q => !(q.1 == key))) ++ [(key, computed)] })
    else (p.2, st)
  | none =>
    (computed, { st with embCache := st.embCache ++ [(key, computed)] })

/-- The per-chunk body of the `_ingest` loop: fresh chunk id, cached or fresh
embedding, semantic-dedup probe against the vector store, chunk insert, and a
Qdrant point only when the chunk is not marked `dedup_of`. -/
def ingestChunk {V : Type} (isStale : String → Bool) (embed : List Char → V)
    (semMatch : List (Point V) → V → String → Option (Nat × ℚ))
    (container modality embedderVersion : String) (docId total : Nat)
    (sourceMeta : List (String × String))
    (acc : Store V × List (Point V)) (ic : Nat × List Char) :
    Store V × List (Point V) :=
  let st := acc.1
  let pts := acc.2
  let idx := ic.1
  let c := ic.2
  let chunkId := st.nextId
  let baseMeta := sourceMeta ++
    [("chunk_index", toString idx), ("total_chunks", toString total)]
  let chunkHash := sha256Hex (utf8Encode ⟨c⟩)
  let cacheKey := chunkHash ++ ":" ++ modality ++ ":" ++ embedderVersion
  let vs := cacheOrCompute isStale { st with nextId := st.nextId + 1 } cacheKey (embed c)
  let vector := vs.1
  let st1 := vs.2
  let target := semMatch st1.points vector modality
  let meta := match target with
    | some t => baseMeta ++ [("semantic_dedup_score", toString t.2)]
    | none => baseMeta
  let row : ChunkRow :=
    { id := chunkId, container := container, docId := docId, modality := modality,
      text := c, meta := meta, embeddingVersion := embedderVersion,
      dedupOf := (target.map Prod.fst) }
  let st2 := { st1 with chunks := st1.chunks ++ [row] }
  match target with
  | some _ => (st2, pts)
  | none =>
    (st2, pts ++ [{ id := chunkId, docId := docId, container := container,
                    modality := modality, vector := vector }])

/-- The document fingerprint of `_ingest`: the stripped extracted text,
falling back on the stripped `uri or title` when empty. -/
def fingerprintOf (extract : Source → String) (source : Source)
    (modality : String) : String :=
  let f0 := pyStripS (ensure_text extract source modality)
  if f0 = "" then pyStripS ((pyOr source.uri source.title).getD "") else f0

/-- `doc_hash = hashlib.sha256(f"{container_uuid}:{fingerprint}".encode()).hexdigest()`. -/
def docHashOf (extract : Source → String) (container : String) (source : Source)
    (modality : String) : String :=
  sha256Hex (utf8Encode (container ++ ":" ++ fingerprintOf extract source modality))

/-- `mime = (source.get("mime") or default).lower()`. -/
def mimeOf (source : Source) (modality : String) : String :=
  (pyLower ((pyOr source.mime (some (if modality = "pdf" then
    "application/pdf" else "text/plain"))).getD "").data).asString

/-- The non-duplicate tail of `_ingest`: raw blob write, chunk loop,
container-stats refresh and Qdrant upsert. -/
def ingestWrite {V : Type} (isStale : String → Bool) (embed : List Char → V)
    (semMatch : List (Point V) → V → String → Option (Nat × ℚ))
    (embedderVersion container : String) (source : Source) (modality : String)
    (text : String) (docId : Nat) (st1 : Store V) : Store V :=
  let st2 := { st1 with blobs := st1.blobs ++ [(container, docId, source.uri, text)] }
  let chunkList0 := chunk_text text 600 80
  let chunkList := if chunkList0 = [] then [text.data] else chunkList0
  let final := chunkList.enum.foldl
    (ingestChunk isStale embed semMatch container modality embedderVersion
      docId chunkList.length source.meta)
    (st2, [])
  let st3 := { final.1 with statsVersion := final.1.statsVersion + 1 }
  if final.2.isEmpty then st3 else { st3 with points := st3.points ++ final.2 }

/-- The dedup-on-hash gate of `_ingest` followed by its write phase: a found
document that already has chunks commits and returns with no further write. -/
def ingestBody {V : Type} (isStale : String → Bool) (extract : Source → String)
    (embed : List Char → V)
    (semMatch : List (Point V) → V → String → Option (Nat × ℚ))
    (embedderVersion container : String) (source : Source) (modality : String)
    (st : Store V) : Store V :=
  let text := ensure_text extract source modality
  let docHash := docHashOf extract container source modality
  let up := upsertDocument st container source (mimeOf source modality) docHash
  if up.2.1 && up.2.2.chunks.any (fun c => c.docId == up.1) then up.2.2
  else
    ingestWrite isStale embed semMatch embedderVersion container source modality
      text up.1 up.2.2

/-- `_ingest(conn, job, modality, heartbeat)` from `pipelines/__init__.py`:
guards on a truthy container id and non-empty extracted text, then runs the
dedup gate and write phase. -/
def ingest {V : Type} (isStale : String → Bool) (extract : Source → String)
    (embed : List Char → V)
    (semMatch : List (Point V) → V → String → Option (Nat × ℚ))
    (embedderVersion : String)
    (containerId : Option String) (source : Source) (modality : String)
    (st : Store V) : Store V :=
  if !truthy containerId then st
  else
    let container := containerId.getD ""
    let text := ensure_text extract source modality
    if text = "" then st
    else ingestBody isStale extract embed semMatch embedderVersion container
      source modality st

section IngestLemmas

variable {V : Type}
variable (isStale : String → Bool) (embed : List Char → V)
variable (semMatch : List (Point V) → V → String → Option (Nat × ℚ))

/-- `_embedding_from_cache_or_compute` only touches the embedding cache. -/
theorem cacheOrCompute_frame (st : Store V) (key : String) (v : V) :
    ((cacheOrCompute isStale st key v).2).documents = st.documents ∧
    ((cacheOrCompute isStale st key v).2).chunks = st.chunks ∧
    ((cacheOrCompute isStale st key v).2).blobs = st.blobs ∧
    ((cacheOrCompute isStale st key v).2).points = st.points ∧
    ((cacheOrCompute isStale st key v).2).nextId = st.nextId := by
  unfold cacheOrCompute
  split
  · split <;> exact ⟨rfl, rfl, rfl, rfl, rfl⟩
  · exact ⟨rfl, rfl, rfl, rfl, rfl⟩

/-- One pass of the chunk loop: documents are untouched and exactly one chunk
row, carrying the ambient `doc_id`, is appended. -/
theorem ingestChunk_state (container modality embedderVersion : String)
    (docId total : Nat) (sourceMeta : List (String × String))
    (acc : Store V × List (Point V)) (ic : Nat × List Char) :
    (((ingestChunk isStale embed semMatch container modality embedderVersion
        docId total sourceMeta acc ic).1).documents = acc.1.documents) ∧
    (∃ row : ChunkRow, row.docId = docId ∧
      ((ingestChunk isStale embed semMatch container modality embedderVersion
        docId total sourceMeta acc ic).1).chunks = acc.1.chunks ++ [row]) := by
  unfold ingestChunk
  have hframe := cacheOrCompute_frame isStale
    { acc.1 with nextId := acc.1.nextId + 1 }
    (sha256Hex (utf8Encode ⟨ic.2⟩) ++ ":" ++ modality ++ ":" ++ embedderVersion)
    (embed ic.2)
  rcases hsem : semMatch
      ((cacheOrCompute isStale { acc.1 with nextId := acc.1.nextId + 1 }
        (sha256Hex (utf8Encode ⟨ic.2⟩) ++ ":" ++ modality ++ ":" ++ embedderVersion)
        (embed ic.2)).2).points
      ((cacheOrCompute isStale { acc.1 with nextId := acc.1.nextId + 1 }
        (sha256Hex (utf8Encode ⟨ic.2⟩) ++ ":" ++ modality ++ ":" ++ embedderVersion)
        (embed ic.2)).1) modality with
    _ | t
  · simp only [hsem]
    exact ⟨hframe.1, ⟨_, rfl, by rw [hframe.2.1]⟩⟩
  · simp only [hsem]
    exact ⟨hframe.1, ⟨_, rfl, by rw [hframe.2.1]⟩⟩

/-- The chunk loop, folded over any enumeration: documents are untouched and
the appended rows all carry the ambient `doc_id`, one per chunk. -/
theorem foldChunks_state (container modality embedderVersion : String)
    (docId total : Nat) (sourceMeta : List (String × String)) :
    ∀ (pairs : List (Nat × List Char)) (acc : Store V × List (Point V)),
      ((pairs.foldl (ingestChunk isStale embed semMatch container modality
          embedderVersion docId total sourceMeta) acc).1).documents
        = acc.1.documents ∧
      ∃ ext : List ChunkRow, (∀ row ∈ ext, row.docId = docId) ∧
        ((pairs.foldl (ingestChunk isStale embed semMatch container modality
            embedderVersion docId total sourceMeta) acc).1).chunks
          = acc.1.chunks ++ ext ∧
        ext.length = pairs.length := by
  intro pairs
  induction pairs with
  | nil => intro acc; exact ⟨rfl, [], by simp⟩
  | cons p rest ih =>
    intro acc
    simp only [List.foldl_cons]
    obtain ⟨hdoc1, row, hrow, hchunk1⟩ :=
      ingestChunk_state isStale embed semMatch container modality embedderVersion
        docId total sourceMeta acc p
    obtain ⟨hdoc2, ext, hext, hchunk2, hlen⟩ :=
      ih (ingestChunk isStale embed semMatch container modality embedderVersion
        docId total sourceMeta acc p)
    refine ⟨by rw [hdoc2, hdoc1], row :: ext, ?_, ?_, by simp [hlen]⟩
    · intro r hr
      rcases List.mem_cons.mp hr with h | h
      · exact h ▸ hrow
      · exact hext r h
    · rw [hchunk2, hchunk1]
      simp

/-- The write phase leaves `documents` unchanged and appends at least one
chunk row carrying `doc_id`. -/
theorem ingestWrite_state (embedderVersion container : String) (source : Source)
    (modality text : String) (docId : Nat) (st1 : Store V) :
    ((ingestWrite isStale embed semMatch embedderVersion container source modality
        text docId st1).documents = st1.documents) ∧
    ∃ ext : List ChunkRow, (∀ row ∈ ext, row.docId = docId) ∧
      (ingestWrite isStale embed semMatch embedderVersion container source modality
        text docId st1).chunks = st1.chunks ++ ext ∧ ext ≠ [] := by
  unfold ingestWrite
  obtain ⟨hdoc, ext, hext, hchunk, hlen⟩ :=
    foldChunks_state isStale embed semMatch container modality embedderVersion
      docId
      (if chunk_text text 600 80 = [] then [text.data] else chunk_text text 600 80).length
      source.meta
      (if chunk_text text 600 80 = [] then [text.data] else chunk_text text 600 80).enum
      ({ st1 with blobs := st1.blobs ++ [(container, docId, source.uri, text)] }, [])
  have hne : (if chunk_text text 600 80 = [] then [text.data]
      else chunk_text text 600 80) ≠ [] := by
    by_cases hc : chunk_text text 600 80 = [] <;> simp [hc]
  refine ⟨?_, ext, hext, ?_, ?_⟩
  · by_cases hq : ((if chunk_text text 600 80 = [] then [text.data]
        else chunk_text text 600 80).enum.foldl
        (ingestChunk isStale embed semMatch container modality embedderVersion docId
          (if chunk_text text 600 80 = [] then [text.data]
           else chunk_text text 600 80).length source.meta)
        ({ st1 with blobs := st1.blobs ++ [(container, docId, source.uri, text)] },
          ([] : List (Point V)))).2.isEmpty <;>
      simp [hq, hdoc]
  · by_cases hq : ((if chunk_text text 600 80 = [] then [text.data]
        else chunk_text text 600 80).enum.foldl
        (ingestChunk isStale embed semMatch container modality embedderVersion docId
          (if chunk_text text 600 80 = [] then [text.data]
           else chunk_text text 600 80).length source.meta)
        ({ st1 with blobs := st1.blobs ++ [(container, docId, source.uri, text)] },
          ([] : List (Point V)))).2.isEmpty <;>
      simp [hq, hchunk]
  · intro hnil
    rw [hnil] at hlen
    simp only [List.length_nil, List.enum_length] at hlen
    exact hne (List.length_eq_zero.mp hlen.symm)

/-- A duplicate report from `_upsert_document` performs no write. -/
theorem upsertDocument_dup (st : Store V) (container : String) (source : Source)
    (mime docHash : String)
    (h : (upsertDocument st container source mime docHash).2.1 = true) :
    (upsertDocument st container source mime docHash).2.2 = st := by
  unfold upsertDocument at h ⊢
  rcases hfind : st.documents.find?
      (fun d => d.container == container && d.hash == docHash) with _ | d
  · rw [hfind] at h
    simp at h
  · rw [hfind] at h ⊢
    by_cases hany : st.chunks.any (fun c => c.docId == d.id) = true
    · simp [hany]
    · simp [hany] at h

/-- When a document with the looked-up `(container, hash)` is found and has
chunks, `_upsert_document` reports a duplicate and leaves the store alone. -/
theorem upsertDocument_found_with_chunks (st : Store V) (container : String)
    (source : Source) (mime docHash : String) (d : DocRow)
    (hfind : st.documents.find?
      (fun e => e.container == container && e.hash == docHash) = some d)
    (hchunk : st.chunks.any (fun c => c.docId == d.id) = true) :
    upsertDocument st container source mime docHash = (d.id, true, st) := by
  unfold upsertDocument
  rw [hfind]
  simp [hchunk]

theorem find?_cons_false {α : Type} (p : α → Bool) (a : α) (l : List α)
    (h : p a = false) : (a :: l).find? p = l.find? p := by
  simp [List.find?_cons, h]

theorem find?_cons_true {α : Type} (p : α → Bool) (a : α) (l : List α)
    (h : p a = true) : (a :: l).find? p = some a := by
  simp [List.find?_cons, h]

/-- `find?` still hits a document with the original id after the metadata
refresh of `_upsert_document` (which rewrites `hash := doc_hash` on every row
with the target id and touches nothing else). -/
theorem find?_update_doc (container docHash mime : String) (source : Source)
    (targetId : Nat) :
    ∀ (l : List DocRow) (d : DocRow),
      l.find? (fun e => e.container == container && e.hash == docHash) = some d →
      d.id = targetId →
      ∃ d' : DocRow,
        (l.map (fun e => if e.id == targetId then
            { e with uri := source.uri, mime := mime, hash := docHash,
                     title := source.title, meta := source.meta } else e)).find?
          (fun e => e.container == container && e.hash == docHash) = some d' ∧
        d'.id = targetId := by
  intro l
  induction l with
  | nil => intro d h _; simp at h
  | cons x xs ih =>
    intro d hfind hid
    by_cases hx : (x.container == container && x.hash == docHash) = true
    · rw [List.find?_cons_of_pos (p := fun e => e.container == container && e.hash == docHash) (a := x) xs hx] at hfind
      injection hfind with hxd
      subst hxd
      have hxid : (x.id == targetId) = true := by simpa using hid
      have hcont : (x.container == container) = true :=
        ((Bool.and_eq_true _ _).mp hx).1
      refine ⟨{ x with uri := source.uri, mime := mime, hash := docHash,
                        title := source.title, meta := source.meta }, ?_, hid⟩
      simp only [List.map_cons, hxid, if_true]
      exact List.find?_cons_of_pos _ (by simp [hcont])
    · rw [List.find?_cons_of_neg (p := fun e => e.container == container && e.hash == docHash) (a := x) xs hx] at hfind
      obtain ⟨d', hd', hd'id⟩ := ih d hfind hid
      by_cases hxid : (x.id == targetId) = true
      · by_cases hcont : (x.container == container) = true
        · refine ⟨{ x with uri := source.uri, mime := mime, hash := docHash,
                            title := source.title, meta := source.meta }, ?_,
                  by simpa using hxid⟩
          simp only [List.map_cons, hxid, if_true]
          exact List.find?_cons_of_pos _ (by simp [hcont])
        · refine ⟨d', ?_, hd'id⟩
          simp only [List.map_cons, hxid, if_true]
          rw [find?_cons_false (α := DocRow)
            (fun e => e.container == container && e.hash == docHash) _ _
            (by simp [hcont])]
          exact hd'
      · refine ⟨d', ?_, hd'id⟩
        simp only [List.map_cons, hxid, if_false]
        rw [find?_cons_false (α := DocRow)
          (fun e => e.container == container && e.hash == docHash) _ _
          (by simpa using hx)]
        exact hd'

/-- A non-duplicate `_upsert_document` (metadata refresh or fresh insert)
leaves the chunks table alone and leaves a document behind that the same
`(container, hash)` lookup finds, bearing the returned doc id. -/
theorem upsertDocument_nondup (st : Store V) (container : String) (source : Source)
    (mime docHash : String)
    (h : (upsertDocument st container source mime docHash).2.1 = false) :
    ((upsertDocument st container source mime docHash).2.2).chunks = st.chunks ∧
    ∃ d : DocRow,
      ((upsertDocument st container source mime docHash).2.2).documents.find?
        (fun e => e.container == container && e.hash == docHash) = some d ∧
      d.id = (upsertDocument st container source mime docHash).1 := by
  unfold upsertDocument at h ⊢
  rcases hfind : st.documents.find?
      (fun e => e.container == container && e.hash == docHash) with _ | d
  · rw [hfind] at h ⊢
    refine ⟨rfl, ?_⟩
    refine ⟨{ id := st.nextId, container := container, uri := source.uri,
              mime := mime, hash := docHash, title := source.title,
              meta := source.meta }, ?_, rfl⟩
    show (st.documents ++
      [({ id := st.nextId, container := container, uri := source.uri,
          mime := mime, hash := docHash, title := source.title,
          meta := source.meta } : DocRow)]).find?
        (fun e => e.container == container && e.hash == docHash) = _
    rw [List.find?_append, hfind]
    simp
  · rw [hfind] at h ⊢
    by_cases hany : st.chunks.any (fun c => c.docId == d.id) = true
    · simp [hany] at h
    · obtain ⟨d', hd', hd'id⟩ :=
        find?_update_doc container docHash mime source d.id st.documents d hfind rfl
      refine ⟨by simp [hany], d', ?_, ?_⟩
      · simpa [hany] using hd'
      · simpa [hany] using hd'id

/-- `ingestBody` with its let-bindings substituted, for rewriting. -/
theorem ingestBody_eq (isStaleF : String → Bool) (extract : Source → String)
    (embedF : List Char → V)
    (semMatchF : List (Point V) → V → String → Option (Nat × ℚ))
    (embedderVersion container : String) (source : Source) (modality : String)
    (st0 : Store V) :
    ingestBody isStaleF extract embedF semMatchF embedderVersion container source
      modality st0
    = (if ((upsertDocument st0 container source (mimeOf source modality)
            (docHashOf extract container source modality)).2.1 &&
          ((upsertDocument st0 container source (mimeOf source modality)
            (docHashOf extract container source modality)).2.2).chunks.any
            (fun c => c.docId ==
              (upsertDocument st0 container source (mimeOf source modality)
                (docHashOf extract container source modality)).1)) = true
       then (upsertDocument st0 container source (mimeOf source modality)
              (docHashOf extract container source modality)).2.2
       else ingestWrite isStaleF embedF semMatchF embedderVersion container source
              modality (ensure_text extract source modality)
              (upsertDocument st0 container source (mimeOf source modality)
                (docHashOf extract container source modality)).1
              (upsertDocument st0 container source (mimeOf source modality)
                (docHashOf extract container source modality)).2.2) := rfl

/-- C2: ingesting the same `(container, source)` a second time is a no-op once
the first run has committed its chunks: the dedup-on-hash gate fires before
the blob write, chunk inserts, stats refresh and vector upsert, so documents,
chunks and points — the whole store — are unchanged, and the document count
grows by 0 on the second run. Holds for every starting store and job. -/
theorem ingest_idempotent (isStaleF : String → Bool) (extract : Source → String)
    (embedF : List Char → V)
    (semMatchF : List (Point V) → V → String → Option (Nat × ℚ))
    (embedderVersion : String) (containerId : Option String) (source : Source)
    (modality : String) (st : Store V) :
    ingest isStaleF extract embedF semMatchF embedderVersion containerId source
        modality
      (ingest isStaleF extract embedF semMatchF embedderVersion containerId source
        modality st)
    = ingest isStaleF extract embedF semMatchF embedderVersion containerId source
        modality st
    ∧ (ingest isStaleF extract embedF semMatchF embedderVersion containerId source
        modality
        (ingest isStaleF extract embedF semMatchF embedderVersion containerId
          source modality st)).documents.length
      = (ingest isStaleF extract embedF semMatchF embedderVersion containerId
          source modality st).documents.length := by
  have hbody : ∀ (container : String) (st0 : Store V),
      ingestBody isStaleF extract embedF semMatchF embedderVersion container source
        modality
        (ingestBody isStaleF extract embedF semMatchF embedderVersion container
          source modality st0)
      = ingestBody isStaleF extract embedF semMatchF embedderVersion container
          source modality st0 := by
    intro container st0
    by_cases hdup :
        ((upsertDocument st0 container source (mimeOf source modality)
            (docHashOf extract container source modality)).2.1 &&
          ((upsertDocument st0 container source (mimeOf source modality)
            (docHashOf extract container source modality)).2.2).chunks.any
            (fun c => c.docId ==
              (upsertDocument st0 container source (mimeOf source modality)
                (docHashOf extract container source modality)).1)) = true
    · have e1 : ingestBody isStaleF extract embedF semMatchF embedderVersion
          container source modality st0
          = (upsertDocument st0 container source (mimeOf source modality)
              (docHashOf extract container source modality)).2.2 := by
        rw [ingestBody_eq, if_pos hdup]
      have hst : (upsertDocument st0 container source (mimeOf source modality)
          (docHashOf extract container source modality)).2.2 = st0 :=
        upsertDocument_dup st0 container source _ _ ((Bool.and_eq_true _ _).mp hdup).1
      rw [e1, hst, e1, hst]
    · have e1 : ingestBody isStaleF extract embedF semMatchF embedderVersion
          container source modality st0
          = ingestWrite isStaleF embedF semMatchF embedderVersion container source
              modality (ensure_text extract source modality)
              (upsertDocument st0 container source (mimeOf source modality)
                (docHashOf extract container source modality)).1
              (upsertDocument st0 container source (mimeOf source modality)
                (docHashOf extract container source modality)).2.2 := by
        rw [ingestBody_eq, if_neg hdup]
      rcases hd : (upsertDocument st0 container source (mimeOf source modality)
          (docHashOf extract container source modality)).2.1 with _ | _
      · obtain ⟨hchunks, d, hfind, hdid⟩ :=
          upsertDocument_nondup st0 container source (mimeOf source modality)
            (docHashOf extract container source modality) hd
        obtain ⟨hwdoc, ext, hext, hwchunk, hextne⟩ :=
          ingestWrite_state isStaleF embedF semMatchF embedderVersion container
            source modality (ensure_text extract source modality)
            (upsertDocument st0 container source (mimeOf source modality)
              (docHashOf extract container source modality)).1
            (upsertDocument st0 container source (mimeOf source modality)
              (docHashOf extract container source modality)).2.2
        set W := ingestWrite isStaleF embedF semMatchF embedderVersion container
          source modality (ensure_text extract source modality)
          (upsertDocument st0 container source (mimeOf source modality)
            (docHashOf extract container source modality)).1
          (upsertDocument st0 container source (mimeOf source modality)
            (docHashOf extract container source modality)).2.2 with hW
        have hfindW : W.documents.find?
            (fun e => e.container == container &&
              e.hash == docHashOf extract container source modality) = some d := by
          rw [hwdoc]; exact hfind
        have hanyW : W.chunks.any (fun c => c.docId == d.id) = true := by
          rw [hwchunk, List.any_append]
          rcases hext2 : ext with _ | ⟨row, rest⟩
          · exact absurd hext2 hextne
          · have hrow : row.docId = d.id := by
              rw [hdid]
              exact hext row (by rw [hext2]; exact List.mem_cons_self row rest)
            have : (row.docId == d.id) = true := by simpa using hrow
            simp [this]
        have hupW : upsertDocument W container source (mimeOf source modality)
            (docHashOf extract container source modality) = (d.id, true, W) :=
          upsertDocument_found_with_chunks W container source _ _ d hfindW hanyW
        rw [e1]
        have e2 : ingestBody isStaleF extract embedF semMatchF embedderVersion
            container source modality W = W := by
          rw [ingestBody_eq, hupW]
          simp [hanyW]
        exact e2
      · -- duplicate flag true but gate condition false: impossible, since the
        -- duplicate report itself required chunks for the found doc.
        exfalso
        have hfindany : ∃ d : DocRow, st0.documents.find?
            (fun e => e.container == container &&
              e.hash == docHashOf extract container source modality) = some d ∧
            st0.chunks.any (fun c => c.docId == d.id) = true := by
          unfold upsertDocument at hd
          rcases hfind : st0.documents.find?
              (fun e => e.container == container &&
                e.hash == docHashOf extract container source modality) with _ | d
          · rw [hfind] at hd; simp at hd
          · rw [hfind] at hd
            by_cases hany : st0.chunks.any (fun c => c.docId == d.id) = true
            · exact ⟨d, hfind, hany⟩
            · simp [hany] at hd
        obtain ⟨d, hfind, hany⟩ := hfindany
        have hup := upsertDocument_found_with_chunks st0 container source
          (mimeOf source modality) (docHashOf extract container source modality)
          d hfind hany
        rw [hup] at hdup
        simp [hany] at hdup
  have hmain : ingest isStaleF extract embedF semMatchF embedderVersion containerId
      source modality
      (ingest isStaleF extract embedF semMatchF embedderVersion containerId source
        modality st)
      = ingest isStaleF extract embedF semMatchF embedderVersion containerId source
        modality st := by
    unfold ingest
    by_cases hc : truthy containerId
    · simp only [hc, Bool.not_true, Bool.false_eq_true, if_false]
      by_cases ht : ensure_text extract source modality = ""
      · simp [ht]
      · simp only [ht, if_false]
        exact hbody (containerId.getD "") st
    · simp [hc]
  exact ⟨hmain, by rw [hmain]⟩

end IngestLemmas

/-! ## `search.py` — result building, the BM25 stage and the dedup filter

The SQL of `_bm25_stage` is modelled over a list of joined
`(chunk, document)` rows whose order stands for the `ORDER BY` of the
statement; `websearch_to_tsquery` matching and `ts_rank_cd` are oracles.
`LIMIT` keeps the leading rows of that order. -/

structure SearchResult where
  chunk_id : String
  doc_id : String
  container_id : String
  score : ℚ
  modality : String
  meta : List (String × String)
deriving DecidableEq, Repr

/-- Python `dict.get(key)` over the insertion-ordered assoc list. -/
def metaGet (m : List (String × String)) (key : String) : Option String :=
  (m.find? (fun p => p.1 == key)).map Prod.snd

/-- Python `dict[key] = v`: overwrite in place or append. -/
def metaSet (m : List (String × String)) (key v : String) :
    List (String × String) :=
  if m.any (fun p => p.1 == key) then
    m.map (fun p => if p.1 == key then (p.1, v) else p)
  else m ++ [(key, v)]

/-- `_build_result(chunk, doc, container_map, score, ...)`: copies the chunk
meta and stamps `meta["dedup_of"]` when the chunk row carries `dedup_of`. -/
def build_result (c : ChunkRow) (score : ℚ) : SearchResult :=
  { chunk_id := toString c.id, doc_id := toString c.docId,
    container_id := c.container, score := score, modality := c.modality,
    meta := match c.dedupOf with
      | some t => metaSet c.meta "dedup_of" (toString t)
      | none => c.meta }

/-- `_bm25_stage`: the WHERE clause keeps rows in the requested containers
matching the ts-query with `dedup_of IS NULL`, `LIMIT max(k*2, k)` keeps the
leading rows, and the Python loop then drops modalities outside the
container's allowlist (an empty allowlist allows everything). -/
def bm25_stage (tsMatch : ChunkRow → Bool) (rank : ChunkRow → ℚ)
    (db : List (ChunkRow × DocRow)) (containerIds : Option (List String))
    (modalities : String → List String) (k : Nat) : List SearchResult :=
  let filtered := db.filter (fun cd =>
    (match containerIds with
     | some cids => cids.contains cd.1.container
     | none => true)
    && tsMatch cd.1 && (cd.1.dedupOf == none))
  let rows := filtered.take (max (k * 2) k)
  (rows.filter (fun cd =>
    let allowed := modalities cd.1.container
    allowed.isEmpty || allowed.contains cd.1.modality)).map
    (fun cd => build_result cd.1 (rank cd.1))

/-- The loop body of `_dedup_results` with its running `seen` set. -/
def dedupResultsGo (seen : List String) : List SearchResult → List SearchResult
  | [] => []
  | r :: rest =>
    if truthy (metaGet r.meta "dedup_of") then dedupResultsGo seen rest
    else if seen.contains r.chunk_id then dedupResultsGo seen rest
    else r :: dedupResultsGo (r.chunk_id :: seen) rest

/-- `_dedup_results(results)`: drop results whose meta carries `dedup_of`
and collapse repeated chunk ids. -/
def dedup_results (results : List SearchResult) : List SearchResult :=
  dedupResultsGo [] results

/-- Well-formed store: every existing chunk and point id is below the fresh-id
counter (`uuid4` freshness). -/
def StoreWF {V : Type} (st : Store V) : Prop :=
  (∀ c ∈ st.chunks, c.id < st.nextId) ∧ (∀ p ∈ st.points, p.id < st.nextId)

/-- The C1 store invariant: no vector point exists for a chunk marked
`dedup_of`. -/
def NoDedupVectors {V : Type} (st : Store V) : Prop :=
  ∀ c ∈ st.chunks, c.dedupOf ≠ none → ∀ p ∈ st.points, p.id ≠ c.id

section DedupInvariant

variable {V : Type}
variable (isStale : String → Bool) (embed : List Char → V)
variable (semMatch : List (Point V) → V → String → Option (Nat × ℚ))
variable (container modality embedderVersion : String) (docId total : Nat)
variable (sourceMeta : List (String × String))

/-- One pass of the ingest chunk loop preserves well-formed ids and the
dedup invariant, also over the pending point batch: the fresh chunk id is the
counter value, and a point (with that same id) is queued exactly when the
chunk was not marked `dedup_of`. -/
theorem ingestChunk_inv (acc : Store V × List (Point V)) (ic : Nat × List Char)
    (h1 : ∀ c ∈ acc.1.chunks, c.id < acc.1.nextId)
    (h2 : ∀ p ∈ acc.1.points, p.id < acc.1.nextId)
    (h3 : ∀ p ∈ acc.2, p.id < acc.1.nextId)
    (h4 : ∀ c ∈ acc.1.chunks, c.dedupOf ≠ none →
      (∀ p ∈ acc.1.points, p.id ≠ c.id) ∧ (∀ p ∈ acc.2, p.id ≠ c.id)) :
    (∀ c ∈ (ingestChunk isStale embed semMatch container modality embedderVersion
        docId total sourceMeta acc ic).1.chunks,
      c.id < (ingestChunk isStale embed semMatch container modality embedderVersion
        docId total sourceMeta acc ic).1.nextId) ∧
    (∀ p ∈ (ingestChunk isStale embed semMatch container modality embedderVersion
        docId total sourceMeta acc ic).1.points,
      p.id < (ingestChunk isStale embed semMatch container modality embedderVersion
        docId total sourceMeta acc ic).1.nextId) ∧
    (∀ p ∈ (ingestChunk isStale embed semMatch container modality embedderVersion
        docId total sourceMeta acc ic).2,
      p.id < (ingestChunk isStale embed semMatch container modality embedderVersion
        docId total sourceMeta acc ic).1.nextId) ∧
    (∀ c ∈ (ingestChunk isStale embed semMatch container modality embedderVersion
        docId total sourceMeta acc ic).1.chunks,
      c.dedupOf ≠ none →
      (∀ p ∈ (ingestChunk isStale embed semMatch container modality
          embedderVersion docId total sourceMeta acc ic).1.points, p.id ≠ c.id) ∧
      (∀ p ∈ (ingestChunk isStale embed semMatch container modality
          embedderVersion docId total sourceMeta acc ic).2, p.id ≠ c.id)) := by
  unfold ingestChunk
  have hframe := cacheOrCompute_frame isStale
    { acc.1 with nextId := acc.1.nextId + 1 }
    (sha256Hex (utf8Encode ⟨ic.2⟩) ++ ":" ++ modality ++ ":" ++ embedderVersion)
    (embed ic.2)
  have hchunks := hframe.2.1
  have hpoints := hframe.2.2.2.1
  have hnext := hframe.2.2.2.2
  rcases hsem : semMatch
      ((cacheOrCompute isStale { acc.1 with nextId := acc.1.nextId + 1 }
        (sha256Hex (utf8Encode ⟨ic.2⟩) ++ ":" ++ modality ++ ":" ++ embedderVersion)
        (embed ic.2)).2).points
      ((cacheOrCompute isStale { acc.1 with nextId := acc.1.nextId + 1 }
        (sha256Hex (utf8Encode ⟨ic.2⟩) ++ ":" ++ modality ++ ":" ++ embedderVersion)
        (embed ic.2)).1) modality with
    _ | t
  all_goals
    simp only [hsem]
    refine ⟨?_, ?_, ?_, ?_⟩
  · intro c hc
    simp only [hchunks, hnext, List.mem_append, List.mem_singleton] at hc ⊢
    rcases hc with h | h
    · exact lt_trans (h1 c h) (by omega)
    · rw [h]; simp
  · intro p hp
    simp only [hpoints, hnext] at hp ⊢
    exact lt_trans (h2 p hp) (by omega)
  · intro p hp
    simp only [hnext, List.mem_append, List.mem_singleton] at hp ⊢
    rcases hp with h | h
    · exact lt_trans (h3 p h) (by omega)
    · rw [h]; simp
  · intro c hc hded
    simp only [hchunks, List.mem_append, List.mem_singleton] at hc
    rcases hc with h | h
    · obtain ⟨hpo, hpe⟩ := h4 c h hded
      refine ⟨?_, ?_⟩
      · intro p hp; simp only [hpoints] at hp; exact hpo p hp
      · intro p hp
        simp only [List.mem_append, List.mem_singleton] at hp
        rcases hp with h2' | h2'
        · exact hpe p h2'
        · rw [h2']
          simp only
          exact Nat.ne_of_gt (h1 c h)
    · rw [h] at hded
      simp at hded
  · intro c hc
    simp only [hchunks, hnext, List.mem_append, List.mem_singleton] at hc ⊢
    rcases hc with h | h
    · exact lt_trans (h1 c h) (by omega)
    · rw [h]; simp
  · intro p hp
    simp only [hpoints, hnext] at hp ⊢
    exact lt_trans (h2 p hp) (by omega)
  · intro p hp
    simp only [hnext] at hp ⊢
    exact lt_trans (h3 p hp) (by omega)
  · intro c hc hded
    simp only [hchunks, List.mem_append, List.mem_singleton] at hc
    rcases hc with h | h
    · obtain ⟨hpo, hpe⟩ := h4 c h hded
      refine ⟨?_, ?_⟩
      · intro p hp; simp only [hpoints] at hp; exact hpo p hp
      · intro p hp; exact hpe p hp
    · refine ⟨?_, ?_⟩
      · intro p hp
        simp only [hpoints] at hp
        rw [h]
        simp only
        exact Nat.ne_of_lt (h2 p hp)
      · intro p hp
        rw [h]
        simp only
        exact Nat.ne_of_lt (h3 p hp)

/-- The chunk loop preserves well-formed ids and the dedup invariant, also
for the pending point batch. -/
theorem foldChunks_inv :
    ∀ (pairs : List (Nat × List Char)) (acc : Store V × List (Point V)),
      (∀ c ∈ acc.1.chunks, c.id < acc.1.nextId) →
      (∀ p ∈ acc.1.points, p.id < acc.1.nextId) →
      (∀ p ∈ acc.2, p.id < acc.1.nextId) →
      (∀ c ∈ acc.1.chunks, c.dedupOf ≠ none →
        (∀ p ∈ acc.1.points, p.id ≠ c.id) ∧ (∀ p ∈ acc.2, p.id ≠ c.id)) →
      (∀ c ∈ (pairs.foldl (ingestChunk isStale embed semMatch container modality
          embedderVersion docId total sourceMeta) acc).1.chunks,
        c.id < (pairs.foldl (ingestChunk isStale embed semMatch container modality
          embedderVersion docId total sourceMeta) acc).1.nextId) ∧
      (∀ p ∈ (pairs.foldl (ingestChunk isStale embed semMatch container modality
          embedderVersion docId total sourceMeta) acc).1.points,
        p.id < (pairs.foldl (ingestChunk isStale embed semMatch container modality
          embedderVersion docId total sourceMeta) acc).1.nextId) ∧
      (∀ p ∈ (pairs.foldl (ingestChunk isStale embed semMatch container modality
          embedderVersion docId total sourceMeta) acc).2,
        p.id < (pairs.foldl (ingestChunk isStale embed semMatch container modality
          embedderVersion docId total sourceMeta) acc).1.nextId) ∧
      (∀ c ∈ (pairs.foldl (ingestChunk isStale embed semMatch container modality
          embedderVersion docId total sourceMeta) acc).1.chunks,
        c.dedupOf ≠ none →
        (∀ p ∈ (pairs.foldl (ingestChunk isStale embed semMatch container modality
            embedderVersion docId total sourceMeta) acc).1.points, p.id ≠ c.id) ∧
        (∀ p ∈ (pairs.foldl (ingestChunk isStale embed semMatch container modality
            embedderVersion docId total sourceMeta) acc).2, p.id ≠ c.id)) := by
  intro pairs
  induction pairs with
  | nil => intro acc h1 h2 h3 h4; exact ⟨h1, h2, h3, h4⟩
  | cons ic rest ih =>
    intro acc h1 h2 h3 h4
    simp only [List.foldl_cons]
    obtain ⟨g1, g2, g3, g4⟩ := ingestChunk_inv isStale embed semMatch container
      modality embedderVersion docId total sourceMeta acc ic h1 h2 h3 h4
    exact ih _ g1 g2 g3 g4

/-- `_upsert_document` never touches chunks or points, and only moves the
fresh-id counter forward. -/
theorem upsertDocument_frame (st : Store V) (container2 : String)
    (source : Source) (mime docHash : String) :
    ((upsertDocument st container2 source mime docHash).2.2).chunks = st.chunks ∧
    ((upsertDocument st container2 source mime docHash).2.2).points = st.points ∧
    st.nextId ≤ ((upsertDocument st container2 source mime docHash).2.2).nextId := by
  unfold upsertDocument
  rcases hfind : st.documents.find?
      (fun d => d.container == container2 && d.hash == docHash) with _ | d
  · rw [hfind]
    exact ⟨rfl, rfl, by simp⟩
  · rw [hfind]
    by_cases hany : st.chunks.any (fun c => c.docId == d.id) = true
    · simp [hany]
    · simp [hany]

/-- The C1 invariant survives the write phase. -/
theorem ingestWrite_inv (source : Source) (text : String) (st1 : Store V)
    (h1 : ∀ c ∈ st1.chunks, c.id < st1.nextId)
    (h2 : ∀ p ∈ st1.points, p.id < st1.nextId)
    (h4 : NoDedupVectors st1) :
    StoreWF (ingestWrite isStale embed semMatch embedderVersion container source
      modality text docId st1) ∧
    NoDedupVectors (ingestWrite isStale embed semMatch embedderVersion container
      source modality text docId st1) := by
  unfold ingestWrite
  obtain ⟨g1, g2, g3, g4⟩ := foldChunks_inv isStale embed semMatch container
    modality embedderVersion docId
    (if chunk_text text 600 80 = [] then [text.data] else chunk_text text 600 80).length
    source.meta
    (if chunk_text text 600 80 = [] then [text.data] else chunk_text text 600 80).enum
    ({ st1 with blobs := st1.blobs ++ [(container, docId, source.uri, text)] }, [])
    h1 h2 (by simp) (fun c hc hd => ⟨h4 c hc hd, by simp⟩)
  set r := (if chunk_text text 600 80 = [] then [text.data]
      else chunk_text text 600 80).enum.foldl
    (ingestChunk isStale embed semMatch container modality embedderVersion docId
      (if chunk_text text 600 80 = [] then [text.data]
       else chunk_text text 600 80).length source.meta)
    ({ st1 with blobs := st1.blobs ++ [(container, docId, source.uri, text)] },
      ([] : List (Point V))) with hr
  by_cases hq : r.2.isEmpty
  · rw [if_pos hq]
    refine ⟨⟨g1, g2⟩, ?_⟩
    intro c hc hd p hp
    exact (g4 c hc hd).1 p hp
  · rw [if_neg hq]
    constructor
    · refine ⟨g1, ?_⟩
      intro p hp
      rcases List.mem_append.mp hp with h | h
      · exact g2 p h
      · exact g3 p h
    · intro c hc hd p hp
      rcases List.mem_append.mp hp with h | h
      · exact (g4 c hc hd).1 p h
      · exact (g4 c hc hd).2 p h

/-- The C1 invariant survives a whole `_ingest` run: chunks inserted with
`dedup_of` set are excluded from the Qdrant point batch, so no vector for
them ever reaches the store. -/
theorem ingest_inv (extract : Source → String) (containerId : Option String)
    (source : Source) (st : Store V)
    (hwf : StoreWF st) (hno : NoDedupVectors st) :
    StoreWF (ingest isStale extract embed semMatch embedderVersion containerId
      source modality st) ∧
    NoDedupVectors (ingest isStale extract embed semMatch embedderVersion
      containerId source modality st) := by
  unfold ingest
  by_cases hc : truthy containerId
  · simp only [hc, Bool.not_true, Bool.false_eq_true, if_false]
    by_cases ht : ensure_text extract source modality = ""
    · simp only [ht, if_true]
      exact ⟨hwf, hno⟩
    · simp only [ht, if_false]
      rw [ingestBody_eq]
      obtain ⟨hfc, hfp, hfn⟩ := upsertDocument_frame st (containerId.getD "")
        source (mimeOf source modality)
        (docHashOf extract (containerId.getD "") source modality)
      by_cases hdup :
          ((upsertDocument st (containerId.getD "") source (mimeOf source modality)
              (docHashOf extract (containerId.getD "") source modality)).2.1 &&
            ((upsertDocument st (containerId.getD "") source (mimeOf source modality)
              (docHashOf extract (containerId.getD "") source modality)).2.2).chunks.any
              (fun c => c.docId ==
                (upsertDocument st (containerId.getD "") source (mimeOf source modality)
                  (docHashOf extract (containerId.getD "") source modality)).1)) = true
      · rw [if_pos hdup]
        constructor
        · refine ⟨?_, ?_⟩
          · intro c hc2; rw [hfc] at hc2; exact lt_of_lt_of_le (hwf.1 c hc2) hfn
          · intro p hp; rw [hfp] at hp; exact lt_of_lt_of_le (hwf.2 p hp) hfn
        · intro c hc2 hd p hp
          rw [hfc] at hc2
          rw [hfp] at hp
          exact hno c hc2 hd p hp
      · rw [if_neg hdup]
        refine ingestWrite_inv isStale embed semMatch (containerId.getD "")
          modality embedderVersion _ source _ _ ?_ ?_ ?_
        · intro c hc2; rw [hfc] at hc2; exact lt_of_lt_of_le (hwf.1 c hc2) hfn
        · intro p hp; rw [hfp] at hp; exact lt_of_lt_of_le (hwf.2 p hp) hfn
        · intro c hc2 hd p hp
          rw [hfc] at hc2
          rw [hfp] at hp
          exact hno c hc2 hd p hp
  · simp only [hc]
    simp
    exact ⟨hwf, hno⟩

end DedupInvariant

/-- Every BM25 result stems from a joined row whose chunk has `dedup_of`
NULL: the `WHERE` clause filters the rest out. -/
theorem bm25_stage_no_dedup (tsMatch : ChunkRow → Bool) (rank : ChunkRow → ℚ)
    (db : List (ChunkRow × DocRow)) (containerIds : Option (List String))
    (modalities : String → List String) (k : Nat) :
    ∀ r ∈ bm25_stage tsMatch rank db containerIds modalities k,
      ∃ cd ∈ db, cd.1.dedupOf = none ∧ r = build_result cd.1 (rank cd.1) := by
  intro r hr
  unfold bm25_stage at hr
  obtain ⟨cd, hcd, hbuild⟩ := List.mem_map.mp hr
  have hcd2 := (List.mem_filter.mp hcd).1
  have hcd3 := List.take_subset _ _ hcd2
  obtain ⟨hmem, hpred⟩ := List.mem_filter.mp hcd3
  refine ⟨cd, hmem, ?_, hbuild.symm⟩
  have := (Bool.and_eq_true _ _).mp hpred
  simpa using this.2

/-- Everything surviving `_dedup_results` has no `dedup_of` key (truthy) in
its meta. -/
theorem dedupResultsGo_clean :
    ∀ (l : List SearchResult) (seen : List String) (r : SearchResult),
      r ∈ dedupResultsGo seen l → truthy (metaGet r.meta "dedup_of") = false := by
  intro l
  induction l with
  | nil => intro seen r hr; simp [dedupResultsGo] at hr
  | cons x rest ih =>
    intro seen r hr
    unfold dedupResultsGo at hr
    by_cases hx : truthy (metaGet x.meta "dedup_of") = true
    · rw [if_pos hx] at hr
      exact ih seen r hr
    · rw [if_neg hx] at hr
      by_cases hs : seen.contains x.chunk_id = true
      · rw [if_pos hs] at hr
        exact ih seen r hr
      · rw [if_neg hs] at hr
        rcases List.mem_cons.mp hr with h | h
        · rw [h]
          exact Bool.not_eq_true _ ▸ hx
        · exact ih _ r h

/-- C1: a chunk whose `dedup_of` is set gets no vector — ingestion keeps the
store invariant that no Qdrant point carries a dedup'd chunk's id — and it
never reaches a default search result: the BM25 stage only returns rows with
`dedup_of` NULL, and the `_dedup_results` post-filter drops any result whose
meta carries `dedup_of`. -/
theorem dedup_chunks_excluded {V : Type} (isStale : String → Bool)
    (extract : Source → String) (embed : List Char → V)
    (semMatch : List (Point V) → V → String → Option (Nat × ℚ))
    (embedderVersion : String) (containerId : Option String) (source : Source)
    (modality : String) (st : Store V)
    (tsMatch : ChunkRow → Bool) (rank : ChunkRow → ℚ)
    (db : List (ChunkRow × DocRow)) (containerIds : Option (List String))
    (modalities : String → List String) (k : Nat)
    (results : List SearchResult)
    (hwf : StoreWF st) (hno : NoDedupVectors st) :
    NoDedupVectors (ingest isStale extract embed semMatch embedderVersion
      containerId source modality st) ∧
    (∀ r ∈ bm25_stage tsMatch rank db containerIds modalities k,
      ∃ cd ∈ db, cd.1.dedupOf = none ∧ r = build_result cd.1 (rank cd.1)) ∧
    (∀ r ∈ dedup_results results,
      truthy (metaGet r.meta "dedup_of") = false) :=
  ⟨(ingest_inv isStale embed semMatch modality embedderVersion extract containerId
      source st hwf hno).2,
   bm25_stage_no_dedup tsMatch rank db containerIds modalities k,
   fun r hr => dedupResultsGo_clean results [] r hr⟩

/-- Witness for C1 at a concrete store (one chunk, one point, fresh counter 1)
and an ingest whose similarity probe always reports a near-duplicate. -/
theorem dedup_chunks_excluded_witness :
    (StoreWF (V := Nat)
        { documents := [], chunks := [⟨0, "c", 0, "text", ['a'], [], "v1", none⟩],
          blobs := [], points := [⟨0, 0, "c", "text", 3⟩], embCache := [],
          statsVersion := 0, nextId := 1 } ∧
      NoDedupVectors (V := Nat)
        { documents := [], chunks := [⟨0, "c", 0, "text", ['a'], [], "v1", none⟩],
          blobs := [], points := [⟨0, 0, "c", "text", 3⟩], embCache := [],
          statsVersion := 0, nextId := 1 }) ∧
    NoDedupVectors (ingest (fun _ => false) (fun _ => "")
      (fun c => c.length) (fun _ _ _ => some (0, 97 / 100)) "v1" (some "c")
      { uri := some "u", title := none, mime := none,
        metaText := some "some words here", meta := [] } "text"
      { documents := [], chunks := [⟨0, "c", 0, "text", ['a'], [], "v1", none⟩],
        blobs := [], points := [⟨0, 0, "c", "text", 3⟩], embCache := [],
        statsVersion := 0, nextId := 1 }) :=
  ⟨⟨by unfold StoreWF; decide, by unfold NoDedupVectors; decide⟩,
   (dedup_chunks_excluded (fun _ => false) (fun _ => "") (fun c => c.length)
      (fun _ _ _ => some (0, 97 / 100)) "v1" (some "c")
      { uri := some "u", title := none, mime := none,
        metaText := some "some words here", meta := [] } "text"
      { documents := [], chunks := [⟨0, "c", 0, "text", ['a'], [], "v1", none⟩],
        blobs := [], points := [⟨0, 0, "c", "text", 3⟩], embCache := [],
        statsVersion := 0, nextId := 1 }
      (fun _ => true) (fun _ => 0) [] none (fun _ => []) 5 []
      (by unfold StoreWF; decide) (by unfold NoDedupVectors; decide)).1⟩

/-! ## `pipelines/__init__.py` — `_image_pipeline`

The image path never extracts text: its document hash is
`hashlib.sha256(image_bytes).hexdigest()`. `load_image_bytes`,
`infer_mime`, `make_thumbnail` and the image embedder are oracles; the
thumbnail bytes and storage paths do not affect the claims and are folded
into the blob entry. -/

/-- The write tail of `_image_pipeline` (store_image, the single chunk with
its semantic-dedup probe, stats refresh, and the conditional Qdrant point). -/
def imageWrite {V : Type} (isStale : String → Bool) (embedImage : List Nat → V)
    (semMatch : List (Point V) → V → String → Option (Nat × ℚ))
    (embedderVersion container : String) (source : Source)
    (imageBytes : List Nat) (mime docHash : String) (docId : Nat)
    (st1 : Store V) : Store V :=
  let st2 := { st1 with blobs := st1.blobs ++ [(container, docId, source.uri, "image")] }
  let chunkId := st2.nextId
  let cacheKey := docHash ++ ":image:" ++ embedderVersion
  let vs := cacheOrCompute isStale { st2 with nextId := st2.nextId + 1 } cacheKey
    (embedImage imageBytes)
  let vector := vs.1
  let st3 := vs.2
  let target := semMatch st3.points vector "image"
  let meta := source.meta ++ [("image_hash", docHash), ("mime", mime)]
  let meta2 := match target with
    | some t => meta ++ [("semantic_dedup_score", toString t.2)]
    | none => meta
  let row : ChunkRow :=
    { id := chunkId, container := container, docId := docId, modality := "image",
      text := [], meta := meta2, embeddingVersion := embedderVersion,
      dedupOf := target.map Prod.fst }
  let st4 := { st3 with chunks := st3.chunks ++ [row],
                        statsVersion := st3.statsVersion + 1 }
  match target with
  | some _ => st4
  | none =>
    { st4 with points := st4.points ++
        [{ id := chunkId, docId := docId, container := container,
           modality := "image", vector := vector }] }

/-- `_image_pipeline(conn, job, heartbeat)` from `pipelines/__init__.py`. -/
def image_pipeline {V : Type} (isStale : String → Bool)
    (embedImage : List Nat → V)
    (semMatch : List (Point V) → V → String → Option (Nat × ℚ))
    (embedderVersion : String)
    (loadImage : Source → List Nat × Option String × Option String)
    (inferMime : Option String → Option String → Option String)
    (containerId : Option String) (source : Source) (st : Store V) : Store V :=
  if !truthy containerId then st
  else
    let container := containerId.getD ""
    let imageBytes := (loadImage source).1
    if imageBytes.isEmpty then st
    else
      let mime := (inferMime (pyOr (loadImage source).2.1 source.mime)
        (loadImage source).2.2).getD "image/jpeg"
      let docHash := sha256Hex imageBytes
      let up := upsertDocument st container source mime docHash
      if up.2.1 && up.2.2.chunks.any (fun c => c.docId == up.1) then up.2.2
      else
        imageWrite isStale embedImage semMatch embedderVersion container source
          imageBytes mime docHash up.1 up.2.2

/-- A duplicate report from `_upsert_document` implies the looked-up document
already exists (with the looked-up container and hash). -/
theorem upsertDocument_dup_found {V : Type} (st : Store V) (container : String)
    (source : Source) (mime docHash : String)
    (h : (upsertDocument st container source mime docHash).2.1 = true) :
    ∃ d : DocRow, st.documents.find?
      (fun e => e.container == container && e.hash == docHash) = some d ∧
      d.id = (upsertDocument st container source mime docHash).1 := by
  unfold upsertDocument at h ⊢
  rcases hfind : st.documents.find?
      (fun d => d.container == container && d.hash == docHash) with _ | d
  · rw [hfind] at h; simp at h
  · rw [hfind] at h ⊢
    by_cases hany : st.chunks.any (fun c => c.docId == d.id) = true
    · exact ⟨d, rfl, by simp [hany]⟩
    · simp [hany] at h

/-- `imageWrite` never touches the documents table. -/
theorem imageWrite_documents {V : Type} (isStale : String → Bool)
    (embedImage : List Nat → V)
    (semMatch : List (Point V) → V → String → Option (Nat × ℚ))
    (embedderVersion container : String) (source : Source)
    (imageBytes : List Nat) (mime docHash : String) (docId : Nat)
    (st1 : Store V) :
    (imageWrite isStale embedImage semMatch embedderVersion container source
      imageBytes mime docHash docId st1).documents = st1.documents := by
  unfold imageWrite
  have hframe := cacheOrCompute_frame isStale
    { st1 with blobs := st1.blobs ++ [(container, docId, source.uri, "image")],
               nextId := st1.nextId + 1 }
    (docHash ++ ":image:" ++ embedderVersion) (embedImage imageBytes)
  rcases hsem : semMatch
      ((cacheOrCompute isStale
        { st1 with blobs := st1.blobs ++ [(container, docId, source.uri, "image")],
                   nextId := st1.nextId + 1 }
        (docHash ++ ":image:" ++ embedderVersion) (embedImage imageBytes)).2).points
      ((cacheOrCompute isStale
        { st1 with blobs := st1.blobs ++ [(container, docId, source.uri, "image")],
                   nextId := st1.nextId + 1 }
        (docHash ++ ":image:" ++ embedderVersion) (embedImage imageBytes)).1)
      "image" with _ | t
  · simp only [hsem]
    exact hframe.1
  · simp only [hsem]
    exact hframe.1

/-- After either branch of `_upsert_document` with hash `docHash`, a document
with that hash (and the searched container) is present. -/
theorem upsertDocument_leaves_doc {V : Type} (st : Store V) (container : String)
    (source : Source) (mime docHash : String) :
    ∃ d ∈ ((upsertDocument st container source mime docHash).2.2).documents,
      (d.container == container && d.hash == docHash) = true := by
  rcases hdup : (upsertDocument st container source mime docHash).2.1 with _ | _
  · obtain ⟨-, d, hfind, -⟩ :=
      upsertDocument_nondup st container source mime docHash hdup
    refine ⟨d, List.mem_of_find?_eq_some hfind, ?_⟩
    have h2 := List.find?_some hfind
    simpa using h2
  · obtain ⟨d, hfind, -⟩ :=
      upsertDocument_dup_found st container source mime docHash hdup
    rw [upsertDocument_dup st container source mime docHash hdup]
    refine ⟨d, List.mem_of_find?_eq_some hfind, ?_⟩
    have h2 := List.find?_some hfind
    simpa using h2

/-- C4 (amended): for text and pdf sources the stored document hash is the
SHA-256 hex digest of `container_id:fingerprint` (fingerprint = stripped
extracted text, else stripped `uri or title`); for image sources the stored
document hash is the SHA-256 hex digest of the raw image bytes, with no
container prefix and no fingerprint. -/
theorem doc_hash_per_pipeline {V : Type} (isStale : String → Bool)
    (extract : Source → String) (embed : List Char → V)
    (embedImage : List Nat → V)
    (semMatch : List (Point V) → V → String → Option (Nat × ℚ))
    (embedderVersion : String)
    (loadImage : Source → List Nat × Option String × Option String)
    (inferMime : Option String → Option String → Option String)
    (containerId : Option String) (source : Source) (modality : String)
    (st : Store V) :
    (docHashOf extract (containerId.getD "") source modality
      = sha256Hex (utf8Encode ((containerId.getD "") ++ ":" ++
          fingerprintOf extract source modality))) ∧
    (truthy containerId = true → ensure_text extract source modality ≠ "" →
      ∃ d ∈ (ingest isStale extract embed semMatch embedderVersion containerId
          source modality st).documents,
        (d.container == containerId.getD "" &&
         d.hash == docHashOf extract (containerId.getD "") source modality) = true) ∧
    (truthy containerId = true → (loadImage source).1 ≠ [] →
      ∃ d ∈ (image_pipeline isStale embedImage semMatch embedderVersion loadImage
          inferMime containerId source st).documents,
        (d.container == containerId.getD "" &&
         d.hash == sha256Hex (loadImage source).1) = true) := by
  refine ⟨rfl, ?_, ?_⟩
  · intro hc ht
    unfold ingest
    simp only [hc, Bool.not_true, Bool.false_eq_true, if_false]
    rw [if_neg ht, ingestBody_eq]
    by_cases hdup :
        ((upsertDocument st (containerId.getD "") source (mimeOf source modality)
            (docHashOf extract (containerId.getD "") source modality)).2.1 &&
          ((upsertDocument st (containerId.getD "") source (mimeOf source modality)
            (docHashOf extract (containerId.getD "") source modality)).2.2).chunks.any
            (fun c => c.docId ==
              (upsertDocument st (containerId.getD "") source (mimeOf source modality)
                (docHashOf extract (containerId.getD "") source modality)).1)) = true
    · rw [if_pos hdup]
      exact upsertDocument_leaves_doc st (containerId.getD "") source
        (mimeOf source modality) (docHashOf extract (containerId.getD "") source modality)
    · rw [if_neg hdup]
      obtain ⟨hwdoc, -⟩ := ingestWrite_state isStale embed semMatch embedderVersion
        (containerId.getD "") source modality (ensure_text extract source modality)
        (upsertDocument st (containerId.getD "") source (mimeOf source modality)
          (docHashOf extract (containerId.getD "") source modality)).1
        (upsertDocument st (containerId.getD "") source (mimeOf source modality)
          (docHashOf extract (containerId.getD "") source modality)).2.2
      rw [hwdoc]
      exact upsertDocument_leaves_doc st (containerId.getD "") source
        (mimeOf source modality) (docHashOf extract (containerId.getD "") source modality)
  · intro hc hbytes
    unfold image_pipeline
    simp only [hc, Bool.not_true, Bool.false_eq_true, if_false]
    rw [if_neg (by simpa [List.isEmpty_iff] using hbytes)]
    by_cases hdup :
        ((upsertDocument st (containerId.getD "") source
            ((inferMime (pyOr (loadImage source).2.1 source.mime)
              (loadImage source).2.2).getD "image/jpeg")
            (sha256Hex (loadImage source).1)).2.1 &&
          ((upsertDocument st (containerId.getD "") source
            ((inferMime (pyOr (loadImage source).2.1 source.mime)
              (loadImage source).2.2).getD "image/jpeg")
            (sha256Hex (loadImage source).1)).2.2).chunks.any
            (fun c => c.docId ==
              (upsertDocument st (containerId.getD "") source
                ((inferMime (pyOr (loadImage source).2.1 source.mime)
                  (loadImage source).2.2).getD "image/jpeg")
                (sha256Hex (loadImage source).1)).1)) = true
    · rw [if_pos hdup]
      exact upsertDocument_leaves_doc st (containerId.getD "") source _ _
    · rw [if_neg hdup]
      rw [imageWrite_documents]
      exact upsertDocument_leaves_doc st (containerId.getD "") source _ _

set_option maxRecDepth 1000000 in
/-- C4 counterexample: ingesting concrete image bytes `"img"` into container
`"c"` with source URI `"u"` stores the digest of the raw bytes, which differs
from the claim's value `SHA-256("c:u")` (the fingerprint for an image source
being the URI fallback, the text being empty). -/
theorem image_doc_hash_counterexample :
    (image_pipeline (fun _ => false) (fun _ => (0 : Nat)) (fun _ _ _ => none)
      "v1" (fun _ => (utf8Encode "img", none, none)) (fun _ _ => none)
      (some "c")
      { uri := some "u", title := none, mime := none, metaText := none,
        meta := [] }
      { documents := [], chunks := [], blobs := [], points := [], embCache := [],
        statsVersion := 0, nextId := 0 }).documents.map (fun d => d.hash)
      = [sha256Hex (utf8Encode "img")] ∧
    sha256Hex (utf8Encode "img")
      ≠ sha256Hex (utf8Encode ("c" ++ ":" ++
          pyStripS ((pyOr (some "u") none).getD ""))) := by
  constructor
  · decide
  · decide

/-- Witness for C4's amended theorem at concrete text and image jobs. -/
theorem doc_hash_per_pipeline_witness :
    (truthy (some "c") = true ∧
      ensure_text (fun _ => "")
        { uri := some "u", title := none, mime := none,
          metaText := some "hello doc", meta := [] } "text" ≠ "" ∧
      (utf8Encode "img") ≠ []) ∧
    (∃ d ∈ (ingest (fun _ => false) (fun _ => "") (fun c => c.length)
        (fun _ _ _ => none) "v1" (some "c")
        { uri := some "u", title := none, mime := none,
          metaText := some "hello doc", meta := [] } "text"
        { documents := [], chunks := [], blobs := [], points := [],
          embCache := [], statsVersion := 0, nextId := 0 }).documents,
      (d.container == "c" && d.hash == docHashOf (fun _ => "") "c"
        { uri := some "u", title := none, mime := none,
          metaText := some "hello doc", meta := [] } "text") = true) ∧
    (∃ d ∈ (image_pipeline (fun _ => false) (fun _ => (0 : Nat))
        (fun _ _ _ => none) "v1" (fun _ => (utf8Encode "img", none, none))
        (fun _ _ => none) (some "c")
        { uri := some "u", title := none, mime := none, metaText := none,
          meta := [] }
        { documents := [], chunks := [], blobs := [], points := [],
          embCache := [], statsVersion := 0, nextId := 0 }).documents,
      (d.container == "c" && d.hash == sha256Hex (utf8Encode "img")) = true) :=
  ⟨⟨by decide, by decide, by decide⟩,
   (doc_hash_per_pipeline (fun _ => false) (fun _ => "") (fun c => c.length)
      (fun _ => (0 : Nat)) (fun _ _ _ => none) "v1"
      (fun _ => (utf8Encode "img", none, none)) (fun _ _ => none) (some "c")
      { uri := some "u", title := none, mime := none,
        metaText := some "hello doc", meta := [] } "text"
      { documents := [], chunks := [], blobs := [], points := [],
        embCache := [], statsVersion := 0, nextId := 0 }).2.1
      (by decide) (by decide),
   (doc_hash_per_pipeline (fun _ => false) (fun _ => "") (fun c => c.length)
      (fun _ => (0 : Nat)) (fun _ _ _ => none) "v1"
      (fun _ => (utf8Encode "img", none, none)) (fun _ _ => none) (some "c")
      { uri := some "u", title := none, mime := none, metaText := none,
        meta := [] } "image"
      { documents := [], chunks := [], blobs := [], points := [],
        embCache := [], statsVersion := 0, nextId := 0 }).2.2
      (by decide) (by decide)⟩

/-! ## `jobs/worker.py` — the retry transition

`mark_failed` and `reap_stale_jobs` both run the SQL
`status = CASE WHEN retries + 1 >= MAX_RETRIES THEN 'failed' ELSE 'queued' END,
retries = retries + 1`; timestamps (`updated_at`, `last_heartbeat`) are not
modelled, and the staleness cutoff
`COALESCE(last_heartbeat, updated_at, created_at) < NOW() - interval` is the
oracle `isStale`. -/

inductive JobStatus
  | queued | running | done | failed
deriving DecidableEq, Repr

structure Job where
  id : String
  status : JobStatus
  retries : Nat
  error : Option String
deriving DecidableEq, Repr

/-- `mark_failed(conn, job_id, error)`: the CASE transition plus the
truncated error message. -/
def mark_failed (maxRetries : Nat) (error : String) (j : Job) : Job :=
  { j with
    status := if maxRetries ≤ j.retries + 1 then .failed else .queued,
    retries := j.retries + 1,
    error := some ⟨error.data.take 500⟩ }

/-- The per-row update of `reap_stale_jobs`: only rows stuck in `running`
past the visibility timeout are recycled, with the same CASE transition. -/
def reapOne (maxRetries : Nat) (isStale : Job → Bool) (j : Job) : Job :=
  if j.status = .running ∧ isStale j then
    { j with
      status := if maxRetries ≤ j.retries + 1 then .failed else .queued,
      retries := j.retries + 1 }
  else j

/-- `reap_stale_jobs(conn)` over the whole jobs table. -/
def reap_stale_jobs (maxRetries : Nat) (isStale : Job → Bool)
    (jobs : List Job) : List Job :=
  jobs.map (reapOne maxRetries isStale)

/-- C6: the failure path and the stale-job sweep apply one and the same
transition: with current retries `r`, the job becomes `failed` when
`r + 1 ≥ MAX_RETRIES` and returns to `queued` otherwise, and `retries` is set
to exactly `r + 1` — a strict increase — on both paths. -/
theorem retry_transition_agree (maxRetries : Nat) (error : String)
    (isStale : Job → Bool) (j : Job)
    (hrun : j.status = .running) (hstale : isStale j = true) :
    (mark_failed maxRetries error j).status
      = (if maxRetries ≤ j.retries + 1 then JobStatus.failed else .queued) ∧
    (mark_failed maxRetries error j).retries = j.retries + 1 ∧
    (reapOne maxRetries isStale j).status = (mark_failed maxRetries error j).status ∧
    (reapOne maxRetries isStale j).retries = (mark_failed maxRetries error j).retries ∧
    j.retries < (mark_failed maxRetries error j).retries ∧
    reap_stale_jobs maxRetries isStale [j]
      = [{ j with
           status := if maxRetries ≤ j.retries + 1 then .failed else .queued,
           retries := j.retries + 1 }] := by
  refine ⟨rfl, rfl, ?_, ?_, by simp [mark_failed], ?_⟩ <;>
    simp [reapOne, mark_failed, reap_stale_jobs, hrun, hstale]

/-- Witness for C6: a running stale job one retry below the cap fails. -/
theorem retry_transition_agree_witness :
    ((⟨"j", .running, 2, none⟩ : Job).status = .running ∧
      (fun _ : Job => true) ⟨"j", .running, 2, none⟩ = true) ∧
    (mark_failed 3 "boom" ⟨"j", .running, 2, none⟩).status
      = (if 3 ≤ 2 + 1 then JobStatus.failed else .queued) ∧
    (mark_failed 3 "boom" ⟨"j", .running, 2, none⟩).retries = 2 + 1 :=
  ⟨⟨rfl, rfl⟩,
   (retry_transition_agree 3 "boom" (fun _ => true) ⟨"j", .running, 2, none⟩
      rfl rfl).1,
   (retry_transition_agree 3 "boom" (fun _ => true) ⟨"j", .running, 2, none⟩
      rfl rfl).2.1⟩

/-! ## `adapters/embedder.py` — normalisation and the zero-vector fallback

Vectors are lists of `ℚ`. `np.linalg.norm` computes `√(Σ xᵢ²)`, which is
irrational in general, so `_normalize_vectors` is modelled by
`normalizeWith n v` where the divisor `n` is characterised by `n * n = Σ xᵢ²`
(and is floored at `1e-12` exactly as in the code); unit length is stated as
`Σ xᵢ² = 1` of the result. -/

/-- `EmbeddingClient._fallback(size)`: `size` zero vectors of the default
dimension. -/
def embedFallback (dim size : Nat) : List (List ℚ) :=
  List.replicate size (List.replicate dim 0)

/-- `embed_text(texts)` on the no-API-key path: `[]` for an empty input,
otherwise `self._fallback(len(texts))`. -/
def embed_text_no_api_key (dim : Nat) (texts : List String) : List (List ℚ) :=
  if texts.isEmpty then [] else embedFallback dim texts.length

def sumSq (v : List ℚ) : ℚ := (v.map (fun x => x * x)).sum

/-- The `1e-12` division floor of `_normalize_vectors`. -/
def normEps : ℚ := 1 / 10 ^ 12

/-- `_normalize_vectors` on one vector, the computed L2 norm `n` kept
symbolic: `arr / max(norm, 1e-12)`. -/
def normalizeWith (n : ℚ) (v : List ℚ) : List ℚ :=
  v.map (fun x => x / max n normEps)

theorem sumSq_map_div (v : List ℚ) (c : ℚ) :
    sumSq (v.map (fun x => x / c)) * (c * c) = sumSq v * ((c * c) / (c * c)) := by
  induction v with
  | nil => simp [sumSq]
  | cons x rest ih =>
    simp only [List.map_cons, sumSq, List.sum_cons] at ih ⊢
    by_cases hc : c = 0
    · simp [hc]
    · field_simp at ih ⊢
      linarith [ih]

/-- C9 (amended): `_normalize_vectors` yields a unit vector whenever the
input's L2 norm clears the `1e-12` floor: with `n ≥ 0`, `n² = Σ xᵢ²` and
`n > 1e-12`, the normalised vector has `Σ xᵢ² = 1`. -/
theorem normalize_unit_norm (v : List ℚ) (n : ℚ)
    (hsq : n * n = sumSq v) (hgt : normEps < n) :
    sumSq (normalizeWith n v) = 1 := by
  have heps : (0 : ℚ) < normEps := by norm_num [normEps]
  have hpos : 0 < n := lt_trans heps hgt
  have hmax : max n normEps = n := max_eq_left (le_of_lt hgt)
  have hne : n * n ≠ 0 := by positivity
  have h := sumSq_map_div v n
  rw [div_self hne, mul_one, ← hsq] at h
  unfold normalizeWith
  rw [hmax]
  calc sumSq (v.map fun x => x / n)
      = sumSq (v.map fun x => x / n) * (n * n) / (n * n) := by
        field_simp
    _ = (n * n) / (n * n) := by rw [h]
    _ = 1 := div_self hne

/-- Witness for C9's amended theorem at `v = [3, 4]`, `n = 5`. -/
theorem normalize_unit_norm_witness :
    ((5 : ℚ) * 5 = sumSq [3, 4] ∧ normEps < (5 : ℚ)) ∧
    sumSq (normalizeWith 5 [3, 4]) = 1 :=
  ⟨⟨by norm_num [sumSq], by norm_num [normEps]⟩,
   normalize_unit_norm [3, 4] 5 (by norm_num [sumSq]) (by norm_num [normEps])⟩

/-- C9 counterexample: with no provider API key configured, `embed_text`
returns zero vectors, whose norm is 0, not 1 — and even pushing such a vector
through the normaliser (norm 0, floored divisor) leaves it at norm 0. -/
theorem embed_unit_norm_counterexample :
    embed_text_no_api_key 3 ["hello"] = [[0, 0, 0]] ∧
    sumSq [0, 0, 0] ≠ 1 ∧
    sumSq (normalizeWith 0 [0, 0, 0]) ≠ 1 := by
  refine ⟨rfl, by norm_num [sumSq], by norm_num [normalizeWith, sumSq]⟩

/-! ## `search.py` — latency-budget finalisation of `search_response`

The tail of `search_response` after the results are computed:
`over_budget = max(total_ms - budget, 0)` (here `ℕ` truncated subtraction),
the `LATENCY_BUDGET_EXCEEDED` issue, the `NO_HITS` issue, and
`partial = over_budget > 0`; the response always carries the computed
results. In the non-graph modes the stages upstream only append issue codes
from `{VECTOR_DOWN, RERANK_*, CONTAINER_NOT_FOUND}`, so the incoming issue
list never already holds `LATENCY_BUDGET_EXCEEDED`; that is the hypothesis
of the theorem. -/

structure SearchResponse where
  results : List SearchResult
  issues : List String
  isPartial : Bool
deriving DecidableEq, Repr

/-- The finalisation tail of `search_response`. -/
def search_finalize (totalMs budget : Nat) (issues0 : List String)
    (results : List SearchResult) : SearchResponse :=
  let overBudget := totalMs - budget
  let issues1 := if 0 < overBudget
    then issues0 ++ ["LATENCY_BUDGET_EXCEEDED"] else issues0
  let issues2 := if results.isEmpty && !(issues1.contains "CONTAINER_NOT_FOUND")
    then issues1 ++ ["NO_HITS"] else issues1
  { results := results, issues := issues2, isPartial := decide (0 < overBudget) }

/-- C5: in a non-graph mode, exceeding the latency budget attaches
`LATENCY_BUDGET_EXCEEDED` and sets `partial = true`; within budget the issue
is absent and `partial = false`; in both cases the computed results are
returned unchanged — a budget overrun never becomes an error. -/
theorem latency_budget_soft (totalMs budget : Nat) (issues0 : List String)
    (results : List SearchResult)
    (hclean : "LATENCY_BUDGET_EXCEEDED" ∉ issues0) :
    (budget < totalMs →
      "LATENCY_BUDGET_EXCEEDED" ∈ (search_finalize totalMs budget issues0 results).issues ∧
      (search_finalize totalMs budget issues0 results).isPartial = true) ∧
    (totalMs ≤ budget →
      "LATENCY_BUDGET_EXCEEDED" ∉ (search_finalize totalMs budget issues0 results).issues ∧
      (search_finalize totalMs budget issues0 results).isPartial = false) ∧
    (search_finalize totalMs budget issues0 results).results = results := by
  unfold search_finalize
  refine ⟨?_, ?_, rfl⟩
  · intro hover
    have h1 : 0 < totalMs - budget := by omega
    simp only [h1, if_true, decide_eq_true_eq]
    constructor
    · by_cases hnh : results.isEmpty &&
          !((issues0 ++ ["LATENCY_BUDGET_EXCEEDED"]).contains "CONTAINER_NOT_FOUND")
      · rw [if_pos hnh]
        simp
      · rw [if_neg hnh]
        simp
    · trivial
  · intro hunder
    have h1 : ¬ 0 < totalMs - budget := by omega
    simp only [h1, if_false, decide_eq_true_eq]
    constructor
    · by_cases hnh : results.isEmpty && !(issues0.contains "CONTAINER_NOT_FOUND")
      · rw [if_pos hnh]
        simp only [List.mem_append, List.mem_singleton]
        rintro (h | h)
        · exact hclean h
        · simp at h
      · rw [if_neg hnh]
        exact hclean
    · simp [h1]

/-- Witness for C5: 120 ms against a 100 ms budget with a clean issue list. -/
theorem latency_budget_soft_witness :
    ("LATENCY_BUDGET_EXCEEDED" ∉ (["VECTOR_DOWN"] : List String)) ∧
    (100 < 120 →
      "LATENCY_BUDGET_EXCEEDED" ∈ (search_finalize 120 100 ["VECTOR_DOWN"] []).issues ∧
      (search_finalize 120 100 ["VECTOR_DOWN"] []).isPartial = true) :=
  ⟨by decide,
   (latency_budget_soft 120 100 ["VECTOR_DOWN"] [] (by decide)).1⟩

/-! ## `graph_nl2cypher.py` — the fallback builder and the static validator

`re` patterns are embedded as character-level scanners over the lowercased
query, `\b` being the word/non-word boundary of `[A-Za-z0-9_]` and `\s` the
ASCII whitespace class. The label/relationship-type scan of `validate_cypher`
only records diagnostics (`unknown_labels` / `unknown_rels`) and never adds
an issue, so it does not appear in the accept/reject result modelled here. -/

/-- A regex word character, `[A-Za-z0-9_]`. -/
def isWordChar (c : Char) : Bool := c.isAlphanum || c = '_'

/-- Scanner for `\bword···`: at each position, match `word` preceded by a
non-word boundary, with `after` checking what the pattern requires past the
word. The first argument tracks whether the previous character was a word
character. -/
def scanPat (word : List Char) (after : List Char → Bool) : Bool → List Char → Bool
  | _, [] => false
  | prevW, c :: rest =>
    ((!prevW) && word.isPrefixOf (c :: rest) &&
      after (List.drop word.length (c :: rest)))
      || scanPat word after (isWordChar c) rest

/-- `\b` after the word: end of input or a non-word character. -/
def afterBoundary : List Char → Bool
  | [] => true
  | c :: _ => !isWordChar c

/-- `\s+` after the word: at least one whitespace character follows. -/
def afterSpace : List Char → Bool
  | [] => false
  | c :: _ => isPySpace c

/-- `\s+db\.` after `call`. -/
def afterCallDb (next : List Char) : Bool :=
  !(next.takeWhile isPySpace).isEmpty &&
    ("db.".data).isPrefixOf (next.dropWhile isPySpace)

/-- `\s+csv\b` after `load`. -/
def afterLoadCsv (next : List Char) : Bool :=
  !(next.takeWhile isPySpace).isEmpty &&
    ("csv".data).isPrefixOf (next.dropWhile isPySpace) &&
    afterBoundary ((next.dropWhile isPySpace).drop 3)

/-- The `_DISALLOWED` pattern list: true when any write/DDL/procedure
pattern matches the query (case-insensitively). -/
def hasDisallowed (cypher : String) : Bool :=
  let l := pyLower cypher.data
  scanPat "create".data afterBoundary false l ||
  scanPat "merge".data afterBoundary false l ||
  scanPat "delete".data afterBoundary false l ||
  scanPat "remove".data afterBoundary false l ||
  scanPat "drop".data afterBoundary false l ||
  scanPat "set".data afterSpace false l ||
  scanPat "call".data afterCallDb false l ||
  decide ("apoc.".data <:+: l) ||
  scanPat "load".data afterLoadCsv false l ||
  scanPat "periodic".data afterBoundary false l ||
  scanPat "index".data afterBoundary false l ||
  scanPat "constraint".data afterBoundary false l

def natOfDigits (digs : List Char) : Nat :=
  digs.foldl (fun n c => n * 10 + (c.toNat - 48)) 0

/-- `re.findall(r"\*\s*(\d+)(?:\.\.(\d+))?", cypher)` followed by the
max-accumulation of `validate_cypher`: for each match take the second group
when present, else the first, and return the maximum (0 when no match).
Structural fuel (never less than the remaining input) keeps this
kernel-computable. -/
def hopScanAux : Nat → List Char → Nat
  | 0, _ => 0
  | _ + 1, [] => 0
  | fuel + 1, c :: rest =>
    if c = '*' then
      let rest1 := rest.dropWhile isPySpace
      let digs := rest1.takeWhile Char.isDigit
      if digs.isEmpty then hopScanAux fuel rest
      else
        let a := natOfDigits digs
        let rest2 := rest1.drop digs.length
        match rest2 with
        | '.' :: '.' :: rest3 =>
          let digs2 := rest3.takeWhile Char.isDigit
          if digs2.isEmpty then max a (hopScanAux fuel rest2)
          else max (natOfDigits digs2) (hopScanAux fuel (rest3.drop digs2.length))
        | _ => max a (hopScanAux fuel rest2)
    else hopScanAux fuel rest

def hopMax (l : List Char) : Nat := hopScanAux l.length l

/-- `validate_cypher(cypher, schema, max_hops, k)` reduced to its
accept/reject verdict: reject when empty, when a disallowed pattern matches,
when `limit` is missing, when `$cid` is missing, or when a `*n..m` bound
exceeds `max_hops`; unknown labels and relationship types are only
diagnostics. -/
def validate_cypher (cypher : String) (maxHops : Nat) (k : Nat) : Bool :=
  if pyStripS cypher = "" then false
  else
    let lower := pyLower cypher.data
    !(hasDisallowed cypher ||
      !(decide ("limit".data <:+: lower)) ||
      !(decide ("$cid".data <:+: lower)) ||
      decide (maxHops < hopMax cypher.data))

/-- Python `re.escape`: prefix every regex-special character (the 3.7+
special set) with a backslash. -/
def reEscapeChar (c : Char) : List Char :=
  if ("()[]\x7b\x7d?*+-|^$\\.&~# \t\n\x0d\x0b\x0c".data).contains c
  then ['\\', c] else [c]

def reEscape (l : List Char) : List Char :=
  l.foldr (fun c acc => reEscapeChar c ++ acc) []

/-- `[re.escape(w.lower()) for w in query.split() if len(w) > 2]`. -/
def fallbackKeywords (query : List Char) : List (List Char) :=
  ((pySplit query).filter (fun w => 2 < w.length)).map (fun w => reEscape (pyLower w))

/-- The shared tail of both fallback templates, from the seed collection to
the `nodes` / `rel_maps` projection. -/
def fallbackTailCypher (k : Nat) : String :=
  "\nWITH collect(n) AS seed_nodes\nCALL \x7b\n  WITH seed_nodes\n  UNWIND seed_nodes AS seed\n  OPTIONAL MATCH (seed)-[r:LLCEdge]-(neighbor:LLCNode \x7bcontainer_id: $cid\x7d)\n  RETURN collect(DISTINCT neighbor) AS neighbors, collect(DISTINCT r) AS rels\n\x7d\nWITH seed_nodes + neighbors AS all_nodes, rels\nUNWIND all_nodes AS node\nWITH collect(DISTINCT node)[0.."
  ++ toString k ++
  "] AS nodes, rels\nRETURN\n  [n IN nodes | \x7b\n    node_id: n.node_id,\n    label: n.label,\n    type: n.type,\n    summary: n.summary,\n    properties_json: coalesce(n.properties_json, \x27\x7b\x7b\x7d\x7d\x27),\n    source_chunk_ids: n.source_chunk_ids\n  \x7d] AS nodes,\n  [rel IN rels | \x7b\n    source: startNode(rel).node_id,\n    target: endNode(rel).node_id,\n    type: type(rel),\n    properties_json: coalesce(rel.properties_json, \x27\x7b\x7b\x7d\x7d\x27),\n    source_chunk_ids: rel.source_chunk_ids\n  \x7d] AS rel_maps\n"

/-- The keyword-matching fallback template. -/
def fallbackKeywordCypher (pat : String) (k : Nat) : String :=
  "\nMATCH (n:LLCNode \x7bcontainer_id: $cid\x7d)\nWHERE n.summary IS NOT NULL \n  AND (toLower(n.summary) =~ \x27.*("
  ++ pat ++
  ").*\x27 \n       OR toLower(coalesce(n.label, \x27\x27)) =~ \x27.*("
  ++ pat ++
  ").*\x27)\nWITH n\nLIMIT "
  ++ toString k ++ fallbackTailCypher k

/-- The generic fallback template. -/
def fallbackGenericCypher (k : Nat) : String :=
  "\nMATCH (n:LLCNode \x7bcontainer_id: $cid\x7d)\nWITH n\nLIMIT "
  ++ toString k ++ fallbackTailCypher k

/-- `build_fallback_cypher(container_id, max_hops, k, query)`. The container
id and `max_hops` are accepted but, as in the source, do not occur in the
templates (the container filter is the `$cid` parameter). -/
def build_fallback_cypher (containerId : String) (maxHops k : Nat)
    (query : Option String) : String :=
  match query with
  | some q =>
    if pyStripS q ≠ "" then
      let keywords := fallbackKeywords q.data
      if keywords.isEmpty then fallbackGenericCypher k
      else fallbackKeywordCypher ⟨List.intercalate ['|'] keywords⟩ k
    else fallbackGenericCypher k
  | none => fallbackGenericCypher k

theorem str_infix_left (a : List Char) (s t : String) (h : a <:+: s.data) :
    a <:+: (s ++ t).data := by
  rw [String.data_append]
  exact h.trans (List.prefix_append s.data t.data).isInfix

theorem str_infix_right (a : List Char) (s t : String) (h : a <:+: t.data) :
    a <:+: (s ++ t).data := by
  rw [String.data_append]
  exact h.trans (List.suffix_append s.data t.data).isInfix

/-- Both fallback templates carry the `$cid` parameter and a `LIMIT` clause
in their fixed text, whatever the keyword pattern and `k`. -/
theorem fallback_templates_guarded (pat : String) (k : Nat) :
    ("$cid".data <:+: (fallbackKeywordCypher pat k).data) ∧
    ("LIMIT".data <:+: (fallbackKeywordCypher pat k).data) ∧
    ("$cid".data <:+: (fallbackGenericCypher k).data) ∧
    ("LIMIT".data <:+: (fallbackGenericCypher k).data) := by
  refine ⟨?_, ?_, ?_, ?_⟩
  · unfold fallbackKeywordCypher
    exact str_infix_left _ _ _ (str_infix_left _ _ _ (str_infix_left _ _ _
      (str_infix_left _ _ _ (str_infix_left _ _ _ (str_infix_left _ _ _
        (by decide))))))
  · unfold fallbackKeywordCypher
    exact str_infix_left _ _ _ (str_infix_left _ _ _
      (str_infix_right _ _ _ (by decide)))
  · unfold fallbackGenericCypher
    exact str_infix_left _ _ _ (str_infix_left _ _ _ (by decide))
  · unfold fallbackGenericCypher
    exact str_infix_left _ _ _ (str_infix_left _ _ _ (by decide))

/-- A query accepted by `validate_cypher` is non-empty, clear of every
disallowed pattern, within the hop bound, and holds both `limit` and `$cid`
(case-insensitively). -/
theorem validate_cypher_sound (cypher : String) (maxHops k : Nat)
    (h : validate_cypher cypher maxHops k = true) :
    hasDisallowed cypher = false ∧
    ("limit".data <:+: pyLower cypher.data) ∧
    ("$cid".data <:+: pyLower cypher.data) ∧
    hopMax cypher.data ≤ maxHops := by
  unfold validate_cypher at h
  by_cases hne : pyStripS cypher = ""
  · rw [if_pos hne] at h
    simp at h
  · rw [if_neg hne] at h
    simp only [Bool.not_eq_true', Bool.or_eq_false_iff, Bool.not_eq_false',
      decide_eq_true_eq, decide_eq_false_iff_not, Nat.not_lt] at h
    exact ⟨h.1.1.1, h.1.1.2, h.1.2, h.2⟩

theorem build_fallback_cypher_none (cid : String) (maxHops k : Nat) :
    build_fallback_cypher cid maxHops k none = fallbackGenericCypher k := rfl

theorem build_fallback_cypher_some (cid : String) (maxHops k : Nat)
    (q : String) :
    build_fallback_cypher cid maxHops k (some q) =
      if pyStripS q ≠ "" then
        if (fallbackKeywords q.data).isEmpty then fallbackGenericCypher k
        else fallbackKeywordCypher
          ⟨List.intercalate ['|'] (fallbackKeywords q.data)⟩ k
      else fallbackGenericCypher k := rfl

theorem build_fallback_guarded (cid : String) (maxHops k : Nat)
    (query : Option String) :
    ("$cid".data <:+: (build_fallback_cypher cid maxHops k query).data) ∧
    ("LIMIT".data <:+: (build_fallback_cypher cid maxHops k query).data) := by
  rcases query with _ | q
  · rw [build_fallback_cypher_none]
    exact ⟨(fallback_templates_guarded "" k).2.2.1,
      (fallback_templates_guarded "" k).2.2.2⟩
  · rw [build_fallback_cypher_some]
    by_cases hq : pyStripS q ≠ ""
    · rw [if_pos hq]
      by_cases hk : (fallbackKeywords q.data).isEmpty
      · rw [if_pos hk]
        exact ⟨(fallback_templates_guarded "" k).2.2.1,
          (fallback_templates_guarded "" k).2.2.2⟩
      · rw [if_neg hk]
        exact ⟨(fallback_templates_guarded _ k).1,
          (fallback_templates_guarded _ k).2.1⟩
    · rw [if_neg hq]
      exact ⟨(fallback_templates_guarded "" k).2.2.1,
        (fallback_templates_guarded "" k).2.2.2⟩

set_option maxRecDepth 1000000 in
/-- C3 counterexample: the fallback built from the question "create things"
embeds the user word `create` in its text-match pattern, so the executed
fallback query does contain a write/DDL keyword pattern (and `graph_search`
runs the fallback without validating it). -/
theorem fallback_disallowed_counterexample :
    hasDisallowed (build_fallback_cypher "c" 2 5 (some "create things"))
      = true := by decide

/-- C3 (amended): every fallback query built by `build_fallback_cypher`
contains the literal `$cid` and a `LIMIT` clause, and every NL-translated
query that passed `validate_cypher` contains `$cid` and `limit` and no
write/DDL keyword and respects the hop bound. (The original claim fails for
the fallback's keyword pattern and for the label allowlist, which the
validator only annotates — see the counterexample.) -/
theorem graph_query_guards (cid : String) (maxHops k : Nat)
    (query : Option String) (cypher : String) (mh k2 : Nat) :
    ("$cid".data <:+: (build_fallback_cypher cid maxHops k query).data) ∧
    ("LIMIT".data <:+: (build_fallback_cypher cid maxHops k query).data) ∧
    (validate_cypher cypher mh k2 = true →
      hasDisallowed cypher = false ∧
      ("limit".data <:+: pyLower cypher.data) ∧
      ("$cid".data <:+: pyLower cypher.data) ∧
      hopMax cypher.data ≤ mh) :=
  ⟨(build_fallback_guarded cid maxHops k query).1,
    (build_fallback_guarded cid maxHops k query).2,
    validate_cypher_sound cypher mh k2⟩

set_option maxRecDepth 1000000 in
theorem graph_query_guards_witness :
    ("$cid".data <:+: (build_fallback_cypher "c" 2 5 none).data) ∧
    ("LIMIT".data <:+: (build_fallback_cypher "c" 2 5 none).data) ∧
    (hasDisallowed "MATCH (n:LLCNode \x7bcontainer_id: $cid\x7d) RETURN n LIMIT 5" = false ∧
      ("limit".data <:+: pyLower "MATCH (n:LLCNode \x7bcontainer_id: $cid\x7d) RETURN n LIMIT 5".data) ∧
      ("$cid".data <:+: pyLower "MATCH (n:LLCNode \x7bcontainer_id: $cid\x7d) RETURN n LIMIT 5".data) ∧
      hopMax "MATCH (n:LLCNode \x7bcontainer_id: $cid\x7d) RETURN n LIMIT 5".data ≤ 2) :=
  ⟨(graph_query_guards "c" 2 5 none
      "MATCH (n:LLCNode \x7bcontainer_id: $cid\x7d) RETURN n LIMIT 5" 2 5).1,
    (graph_query_guards "c" 2 5 none
      "MATCH (n:LLCNode \x7bcontainer_id: $cid\x7d) RETURN n LIMIT 5" 2 5).2.1,
    (graph_query_guards "c" 2 5 none
      "MATCH (n:LLCNode \x7bcontainer_id: $cid\x7d) RETURN n LIMIT 5" 2 5).2.2
      (by decide)⟩

set_option maxRecDepth 100000 in
/-- C7 counterexample: a non-empty query with no forbidden keyword, hops
within bound, and a `LIMIT` clause (but no `$cid`) is rejected by
`validate_cypher` — refuting the claim that one of `LIMIT`/`$cid`
suffices. -/
theorem validate_single_keyword_counterexample :
    pyStripS "MATCH (n:LLCNode) RETURN n LIMIT 5" ≠ "" ∧
    hasDisallowed "MATCH (n:LLCNode) RETURN n LIMIT 5" = false ∧
    hopMax "MATCH (n:LLCNode) RETURN n LIMIT 5".data ≤ 2 ∧
    ("limit".data <:+: pyLower "MATCH (n:LLCNode) RETURN n LIMIT 5".data) ∧
    validate_cypher "MATCH (n:LLCNode) RETURN n LIMIT 5" 2 5 = false := by
  refine ⟨?_, ?_, ?_, ?_, ?_⟩ <;> decide

/-- C7 (amended): for a non-empty query with no forbidden keyword and all
hop bounds within `max_hops`, `validate_cypher` accepts exactly when the
query contains BOTH `limit` and `$cid` (case-insensitively): the two
checks are separate `if`s in the source and missing either one rejects. -/
theorem validate_cypher_requires_both (cypher : String) (maxHops k : Nat)
    (hne : pyStripS cypher ≠ "") (hblocked : hasDisallowed cypher = false)
    (hhops : hopMax cypher.data ≤ maxHops) :
    validate_cypher cypher maxHops k = true ↔
      (("limit".data <:+: pyLower cypher.data) ∧
       ("$cid".data <:+: pyLower cypher.data)) := by
  unfold validate_cypher
  rw [if_neg hne, hblocked]
  simp [Nat.not_lt.mpr hhops]

set_option maxRecDepth 100000 in
theorem validate_cypher_requires_both_witness :
    (pyStripS "MATCH (n:LLCNode \x7bcontainer_id: $cid\x7d) RETURN n LIMIT 5" ≠ "" ∧
      hasDisallowed "MATCH (n:LLCNode \x7bcontainer_id: $cid\x7d) RETURN n LIMIT 5" = false ∧
      hopMax "MATCH (n:LLCNode \x7bcontainer_id: $cid\x7d) RETURN n LIMIT 5".data ≤ 2) ∧
    (validate_cypher "MATCH (n:LLCNode \x7bcontainer_id: $cid\x7d) RETURN n LIMIT 5" 2 5 = true ↔
      (("limit".data <:+: pyLower "MATCH (n:LLCNode \x7bcontainer_id: $cid\x7d) RETURN n LIMIT 5".data) ∧
       ("$cid".data <:+: pyLower "MATCH (n:LLCNode \x7bcontainer_id: $cid\x7d) RETURN n LIMIT 5".data))) :=
  ⟨⟨by decide, by decide, by decide⟩,
    validate_cypher_requires_both
      "MATCH (n:LLCNode \x7bcontainer_id: $cid\x7d) RETURN n LIMIT 5" 2 5
      (by decide) (by decide) (by decide)⟩

end CCC
